import Mathlib

/-!
# Verification of the 3Dto2D cloth-flattening pipeline

A shallow embedding, in Lean 4, of the core geometric/topological pipeline of
the 3Dto2D repository (mesh welding, seam extraction, flood segmentation with
kerf, topology repair, physics relaxation, shelf packing), together with
theorems settling the behavioural claims made by the specification.

Modelling conventions:
* JavaScript numbers are modelled by exact rationals.  Square roots appear in
  the source only (a) inside comparisons of Euclidean distances, which we embed
  as the order-isomorphic comparisons of squared distances, and (b) in the
  spring rest/current lengths of the physics relaxer, where we use an exact
  rational square root (the concrete runs evaluated below only take square
  roots of perfect squares, and the general theorems do not depend on the
  value returned).
* JavaScript Map and Set preserve insertion order; they are embedded as
  association lists and duplicate-free lists with ordered append.
* Worklist loops (BFS/DFS flood fills) are embedded with an explicit fuel
  argument; the fuel supplied at every call site is large enough that the
  loop always terminates by exhausting its worklist, never its fuel (for the
  flood fill this is proved, for the evaluation-only loops it is checked by
  evaluation).
-/

set_option maxRecDepth 10000

namespace ClothFlatten

/-- A mesh vertex: 3D position with an RGB vertex color. -/
structure Vertex where
  x : ℚ
  y : ℚ
  z : ℚ
  r : ℚ
  g : ℚ
  b : ℚ
deriving DecidableEq, Repr

/-- A vertex color, as stored in the separate vertexColors array. -/
structure Color where
  r : ℚ
  g : ℚ
  b : ℚ
deriving DecidableEq, Repr

/-- A mesh: vertex list and face list (faces index into the vertex list). -/
structure Mesh where
  vertices : List Vertex
  faces : List (List ℕ)
deriving DecidableEq, Repr

/-- Squared Euclidean distance between two vertices (the source compares
Math.sqrt of this; comparisons of square roots of nonnegative rationals are
equivalent to comparisons of the radicands). -/
def dist2 (a b : Vertex) : ℚ :=
  (b.x - a.x) * (b.x - a.x) + (b.y - a.y) * (b.y - a.y) + (b.z - a.z) * (b.z - a.z)

/-- Canonical undirected edge key: the ordered pair (min, max), embedding the
string key used throughout the source. -/
def edgeKey (a b : ℕ) : ℕ × ℕ :=
  if a < b then (a, b) else (b, a)

/-- The directed edges of a face, as consecutive index pairs with wraparound. -/
def faceEdges (face : List ℕ) : List (ℕ × ℕ) :=
  (List.range face.length).map fun i =>
    (face.getD i 0, face.getD ((i + 1) % face.length) 0)

/-- JS Set.add: append if not already present (insertion order preserved). -/
def pushNew {α : Type} [DecidableEq α] (s : List α) (v : α) : List α :=
  if v ∈ s then s else s ++ [v]

/-- First value bound to a key in an association list (JS Map.get). -/
def alGet {κ ν : Type} [DecidableEq κ] (m : List (κ × ν)) (k : κ) : Option ν :=
  (m.find? fun p => decide (p.1 = k)).map (·.2)

/-- Update the first binding of a key in place, or append a new binding
(JS Map.set keeps the original insertion position on update). -/
def alSet {κ ν : Type} [DecidableEq κ] : List (κ × ν) → κ → ν → List (κ × ν)
  | [], k, v => [(k, v)]
  | (k0, v0) :: rest, k, v =>
      if k0 = k then (k0, v) :: rest else (k0, v0) :: alSet rest k v

/-- Exact rational square root: defined when the argument is the square of a
rational, otherwise 0.  Every concrete evaluation below applies it to perfect
squares only, and the general theorems do not depend on its value. -/
def ratSqrt (q : ℚ) : ℚ :=
  if q < 0 then 0
  else if Nat.sqrt q.num.toNat * Nat.sqrt q.num.toNat = q.num.toNat ∧
      Nat.sqrt q.den * Nat.sqrt q.den = q.den then
    (Nat.sqrt q.num.toNat : ℚ) / (Nat.sqrt q.den : ℚ)
  else 0

/-- A JavaScript number for the UV-acceptance logic: finite, NaN or ±Infinity. -/
inductive JsNum where
  | fin (q : ℚ)
  | nan
  | posInf
  | negInf
deriving DecidableEq, Repr

/-- Finiteness of a JS number. -/
def JsNum.isFinite : JsNum → Bool
  | .fin _ => true
  | _ => false

/-- A 2D UV coordinate over JS numbers. -/
structure UVJ where
  u : JsNum
  v : JsNum
deriving DecidableEq, Repr

/-- A UV list is finite when every coordinate of every entry is finite. -/
def uvListFinite (l : List UVJ) : Bool :=
  l.all fun p => p.u.isFinite && p.v.isFinite

/-! ## Seam extractor (SeamExtractor.js) -/

/-- SeamExtractor.extractRedVertices: collect the indices of the vertices whose
color passes the (strict) red test.  Mirrors SeamExtractor.js lines 38-64:
without vertex colors the result is empty; otherwise index i is red when
color.r > redThreshold, color.g < greenMaxThreshold and
color.b < blueMaxThreshold. -/
def extractRedVertices (redThreshold greenMaxThreshold blueMaxThreshold : ℚ)
    (hasVertexColors : Bool) (vertexColors : List Color) : List ℕ :=
  if hasVertexColors = false then []
  else
    (List.range vertexColors.length).filter fun i =>
      let c := vertexColors.getD i ⟨0, 0, 0⟩
      decide (c.r > redThreshold) && decide (c.g < greenMaxThreshold) &&
        decide (c.b < blueMaxThreshold)

/-- The red predicate as the specification words it (inclusive thresholds):
r ≥ 0.7 and g ≤ 0.4 and b ≤ 0.4.  Stated only to be compared with the
source-derived extractRedVertices. -/
def specRedPredicate (c : Color) : Prop :=
  c.r ≥ 7/10 ∧ c.g ≤ 2/5 ∧ c.b ≤ 2/5

/-! ## Orchestrator UV acceptance (part_006, flattenMesh lines 1411-1436)

Phase 3 of ClothFlattenerApp.flattenMesh runs the physics relaxer inside a
try/catch: an exception, or a relaxed list whose length differs from the
vertex count, falls back to the initial embedding; the final validation then
replaces a wrong-length candidate by the planar projection.  `none` models
the relaxer throwing. -/

/-- The orchestrator's selection of the final UV list for a patch with n
vertices, given the relaxer's outcome, the initial embedding, and the planar
projection fallback.  Mirrors part_006 lines 1411-1436. -/
def chooseFinalUV (n : ℕ) (relaxed : Option (List UVJ))
    (initialUV planar : List UVJ) : List UVJ :=
  let uvs :=
    match relaxed with
    | some r => if r.length = n then r else initialUV
    | none => initialUV
  if uvs.length = n then uvs else planar

/-! ## Flood segmenter (part FloodSegmenter, src/unnamed/part_007)

Face-level flood fill with seam-edge barriers and laser-kerf removal of
red-touching faces. -/

/-- A patch (SubMesh) as produced by the flood segmenter. -/
structure SubMesh where
  vertices : List Vertex
  faces : List (List ℕ)
  globalToLocal : List (ℕ × ℕ)
  localToGlobal : List ℕ
  originalFaceIndices : List ℕ
  internalRedVertices : List ℕ
deriving DecidableEq, Repr

/-- Append a value to the list bound to a key of an association list,
creating the binding if absent (Map.get / push pattern of the source). -/
def alPush {κ : Type} [DecidableEq κ] (m : List (κ × List ℕ)) (k : κ) (v : ℕ) :
    List (κ × List ℕ) :=
  match alGet m k with
  | some l => alSet m k (l ++ [v])
  | none => m ++ [(k, [v])]

/-- In-place modification of one entry of a list of lists (JS array update). -/
def listModify {α : Type} (l : List (List α)) (i : ℕ) (f : List α → List α) :
    List (List α) :=
  l.set i (f (l.getD i []))

/-- The edge-to-faces map built identically by several source modules: scan the
faces in order, pushing each face index onto the entry of each of its edge
keys. -/
def edgeToFacesMap (faces : List (List ℕ)) : List ((ℕ × ℕ) × List ℕ) :=
  (List.range faces.length).foldl
    (fun m fIdx =>
      (faceEdges (faces.getD fIdx [])).foldl
        (fun m e => alPush m (edgeKey e.1 e.2) fIdx) m)
    []

/-- Stable insertion (descending by length): x goes after every existing
element of at least its length, matching the stable JS sort. -/
def insertDescByLength (x : List ℕ) : List (List ℕ) → List (List ℕ)
  | [] => [x]
  | y :: rest =>
      if y.length ≥ x.length then y :: insertDescByLength x rest else x :: y :: rest

/-- Stable sort by descending length (the b.length - a.length JS sorts). -/
def sortDescByLength (l : List (List ℕ)) : List (List ℕ) :=
  l.foldl (fun acc x => insertDescByLength x acc) []

namespace FloodSegmenter

/-- FloodSegmenter.collectBoundaryFaces: the faces containing a seam edge. -/
def collectBoundaryFaces (mesh : Mesh) (seamEdges : List (ℕ × ℕ)) : List ℕ :=
  (List.range mesh.faces.length).filter fun fIdx =>
    (faceEdges (mesh.faces.getD fIdx [])).any fun e => decide (edgeKey e.1 e.2 ∈ seamEdges)

/-- FloodSegmenter.buildFaceAdjacency: for every face, its neighbors across
edges shared by exactly two faces, with the (sorted) shared edge. -/
def buildFaceAdjacency (mesh : Mesh) : List (List (ℕ × (ℕ × ℕ))) :=
  (edgeToFacesMap mesh.faces).foldl
    (fun adj entry =>
      match entry.2 with
      | [f1, f2] =>
          listModify (listModify adj f1 (fun l => l ++ [(f2, entry.1)])) f2
            (fun l => l ++ [(f1, entry.1)])
      | _ => adj)
    (List.replicate mesh.faces.length [])

/-- One push attempt of the flood fill: skip visited neighbors and neighbors
across a wall edge, otherwise mark (visited := 1) and enqueue. -/
def pushStep (wall : List (ℕ × ℕ)) (s : List ℕ × List ℕ) (nb : ℕ × (ℕ × ℕ)) :
    List ℕ × List ℕ :=
  if s.1.getD nb.1 0 ≠ 0 then s
  else if edgeKey nb.2.1 nb.2.2 ∈ wall then s
  else (s.1.set nb.1 1, s.2 ++ [nb.1])

/-- The worklist loop of FloodSegmenter.floodFillExcludingBoundary: pop the
last queue entry (queue.pop), collect it into the island, and push its
unvisited non-wall neighbors.  The fuel argument only makes the recursion
structural; the supplied fuel always exceeds the worst-case number of pops. -/
def floodLoop (adj : List (List (ℕ × (ℕ × ℕ)))) (wall : List (ℕ × ℕ)) :
    ℕ → List ℕ → List ℕ → List ℕ → List ℕ × List ℕ
  | 0, visited, _, island => (visited, island)
  | fuel + 1, visited, queue, island =>
    match queue.getLast? with
    | none => (visited, island)
    | some fIdx =>
      let s := (adj.getD fIdx []).foldl (pushStep wall) (visited, queue.dropLast)
      floodLoop adj wall fuel s.1 s.2 (island ++ [fIdx])

/-- The outer loop of floodFillExcludingBoundary: start a flood from every
still-unvisited face, in face order. -/
def floodOuterLoop (adj : List (List (ℕ × (ℕ × ℕ)))) (wall : List (ℕ × ℕ))
    (fuel : ℕ) :
    List ℕ → List ℕ → List (List ℕ) → List (List ℕ)
  | [], _, islands => islands
  | s :: rest, visited, islands =>
    if visited.getD s 0 ≠ 0 then floodOuterLoop adj wall fuel rest visited islands
    else
      let r := floodLoop adj wall fuel (visited.set s 1) [s] []
      floodOuterLoop adj wall fuel rest r.1
        (if r.2.length > 0 then islands ++ [r.2] else islands)

/-- FloodSegmenter.floodFillExcludingBoundary: boundary faces are premarked
with state 2 and never expanded in round one; the discovered islands are
sorted by descending face count. -/
def floodFillExcludingBoundary (mesh : Mesh) (adj : List (List (ℕ × (ℕ × ℕ))))
    (seamEdges : List (ℕ × ℕ)) (boundaryFaces : List ℕ) : List (List ℕ) :=
  let visited0 :=
    boundaryFaces.foldl (fun v bf => v.set bf 2)
      (List.replicate mesh.faces.length 0)
  sortDescByLength
    (floodOuterLoop adj seamEdges (2 * mesh.faces.length + 1)
      (List.range mesh.faces.length) visited0 [])

/-- The votes of a boundary face: how many of its neighbors lie in each patch,
in first-vote order (patchVotes of the source). -/
def computeVotes (adj : List (List (ℕ × (ℕ × ℕ)))) (faceToPatch : List (ℕ × ℕ))
    (faceIdx : ℕ) : List (ℕ × ℕ) :=
  (adj.getD faceIdx []).foldl
    (fun votes nb =>
      match alGet faceToPatch nb.1 with
      | some pid =>
          match alGet votes pid with
          | some c => alSet votes pid (c + 1)
          | none => votes ++ [(pid, 1)]
      | none => votes)
    []

/-- The plurality patch of a vote list: the earliest strict maximum, starting
from the sentinel (-1, 0) of the source (modelled as none). -/
def bestPatch (votes : List (ℕ × ℕ)) : Option ℕ :=
  (votes.foldl
      (fun (acc : Option ℕ × ℕ) p => if p.2 > acc.2 then (some p.1, p.2) else acc)
      (none, 0)).1

/-- The state of the adjacency-vote reassignment. -/
structure AssignState where
  islands : List (List ℕ)
  faceToPatch : List (ℕ × ℕ)
  remaining : List ℕ
deriving Repr

/-- One round of FloodSegmenter.assignBoundaryFacesByAdjacency: votes are
computed against the start-of-round assignment, then all winners are
attached.  Returns the new state and whether anything changed. -/
def assignRound (adj : List (List (ℕ × (ℕ × ℕ)))) (st : AssignState) :
    AssignState × Bool :=
  let toAdd := st.remaining.foldl
    (fun acc f =>
      match bestPatch (computeVotes adj st.faceToPatch f) with
      | some pid => acc ++ [(f, pid)]
      | none => acc)
    []
  let st2 := toAdd.foldl
    (fun (s : AssignState) fp =>
      { islands := listModify s.islands fp.2 (fun l => l ++ [fp.1]),
        faceToPatch := alSet s.faceToPatch fp.1 fp.2,
        remaining := s.remaining.erase fp.1 })
    st
  (st2, decide (toAdd.length > 0))

/-- The bounded reassignment loop (at most 5 rounds, stopping at a fixed point
or when no boundary face remains). -/
def assignLoop (adj : List (List (ℕ × (ℕ × ℕ)))) : ℕ → AssignState → AssignState
  | 0, st => st
  | k + 1, st =>
    if st.remaining.length = 0 then st
    else
      let r := assignRound adj st
      if r.2 then assignLoop adj k r.1 else r.1

/-- FloodSegmenter.assignBoundaryFacesByAdjacency. -/
def assignBoundaryFacesByAdjacency (adj : List (List (ℕ × (ℕ × ℕ))))
    (islands : List (List ℕ)) (boundaryFaces : List ℕ) : List (List ℕ) :=
  let faceToPatch :=
    (List.range islands.length).foldl
      (fun m pid => (islands.getD pid []).foldl (fun m f => alSet m f pid) m) []
  (assignLoop adj 5 ⟨islands, faceToPatch, boundaryFaces⟩).islands

/-- FloodSegmenter.buildSubMeshWithKerf: drop every face with at least one red
vertex, then rebuild the vertex list from the surviving faces, forcing every
copied vertex color to white. -/
def buildSubMeshWithKerf (mesh : Mesh) (faceIndices : List ℕ)
    (redVerticesSet : List ℕ) : Option SubMesh :=
  let cleanFaceIndices := faceIndices.filter fun fIdx =>
    !((mesh.faces.getD fIdx []).any fun vIdx => decide (vIdx ∈ redVerticesSet))
  if cleanFaceIndices.length = 0 then none
  else
    let usedVertices := cleanFaceIndices.foldl
      (fun s fIdx => (mesh.faces.getD fIdx []).foldl pushNew s) []
    let globalToLocal := (List.range usedVertices.length).map
      (fun i => (usedVertices.getD i 0, i))
    let newVertices := usedVertices.map fun g =>
      let v := mesh.vertices.getD g ⟨0, 0, 0, 0, 0, 0⟩
      (⟨v.x, v.y, v.z, 1, 1, 1⟩ : Vertex)
    let newFaces := cleanFaceIndices.map fun fIdx =>
      (mesh.faces.getD fIdx []).map fun v => (alGet globalToLocal v).getD 0
    some ⟨newVertices, newFaces, globalToLocal, usedVertices, cleanFaceIndices, []⟩

/-- FloodSegmenter.segmentWithSeams: barrier faces are identified, the
remaining faces flood-filled, barrier faces reattached by adjacency vote,
small islands dropped, and each surviving island turned into a kerf-cleaned
patch annotated with the red vertices it contained. -/
def segmentWithSeams (mesh : Mesh) (seamEdges : List (ℕ × ℕ)) (minFaces : ℕ)
    (assignBoundary : Bool) (redVertices : List ℕ) : List SubMesh :=
  let boundaryFaces := collectBoundaryFaces mesh seamEdges
  let adjacency := buildFaceAdjacency mesh
  let islands := floodFillExcludingBoundary mesh adjacency seamEdges boundaryFaces
  let islands2 :=
    if assignBoundary ∧ islands.length > 0 then
      assignBoundaryFacesByAdjacency adjacency islands boundaryFaces
    else islands
  let validIslands := islands2.filter fun island => decide (island.length ≥ minFaces)
  validIslands.filterMap fun faceIndices =>
    let internalRed := faceIndices.foldl
      (fun s fIdx =>
        (mesh.faces.getD fIdx []).foldl
          (fun s vIdx => if vIdx ∈ redVertices then pushNew s vIdx else s) s)
      []
    match buildSubMeshWithKerf mesh faceIndices redVertices with
    | some sm =>
        if sm.faces.length ≥ minFaces then
          some { sm with internalRedVertices := internalRed }
        else none
    | none => none

/-- A concrete two-triangle mesh (triangles 012 and 132 sharing edge 12);
vertex 3 is the red-marked corner. -/
def meshW : Mesh :=
  ⟨[⟨0, 0, 0, 1, 1, 1⟩, ⟨1, 0, 0, 1, 1, 1⟩, ⟨0, 1, 0, 1, 1, 1⟩, ⟨1, 1, 0, 1, 0, 0⟩],
    [[0, 1, 2], [1, 3, 2]]⟩

/-- The single patch the segmenter emits for meshW with red vertex 3: the
red-touching triangle 132 is removed by the kerf. -/
def smW : SubMesh :=
  ⟨[⟨0, 0, 0, 1, 1, 1⟩, ⟨1, 0, 0, 1, 1, 1⟩, ⟨0, 1, 0, 1, 1, 1⟩],
    [[0, 1, 2]], [(0, 0), (1, 1), (2, 2)], [0, 1, 2], [0], [3]⟩

/-- One step of the face graph used by the flood fill: j is a neighbor of i in
the computed adjacency structure. -/
def adjStep (adj : List (List (ℕ × (ℕ × ℕ)))) (i j : ℕ) : Prop :=
  ∃ e, (j, e) ∈ adj.getD i []

/-- Reachability in the face graph of the computed adjacency structure. -/
def Reach (adj : List (List (ℕ × (ℕ × ℕ)))) : ℕ → ℕ → Prop :=
  Relation.ReflTransGen (adjStep adj)

end FloodSegmenter

/-! ## Topology repair (src/js/TopologyRepair.js)

Euler characteristic, boundary loops, and the single-cut cylinder repair.
Distances are compared as squared distances (sqrt is strictly monotone). -/

namespace TopologyRepair

/-- The result of TopologyRepair.computeEuler. -/
structure TopoInfo where
  euler : ℤ
  V : ℕ
  E : ℕ
  F : ℕ
  boundaryEdges : List (ℕ × ℕ)
  boundaryLoopCount : ℕ
deriving DecidableEq, Repr

/-- The edge incidence-count map of computeEuler, in key insertion order. -/
def edgeCountMap (faces : List (List ℕ)) : List ((ℕ × ℕ) × ℕ) :=
  faces.foldl
    (fun m face =>
      (faceEdges face).foldl
        (fun m e =>
          let k := edgeKey e.1 e.2
          match alGet m k with
          | some c => alSet m k (c + 1)
          | none => m ++ [(k, 1)])
        m)
    []

/-- The vertex adjacency map over a boundary edge list (countBoundaryLoops and
separateBoundaryLoops build the same structure). -/
def boundaryAdj (boundaryEdges : List (ℕ × ℕ)) : List (ℕ × List ℕ) :=
  boundaryEdges.foldl
    (fun m e =>
      let m1 := if (alGet m e.1).isSome then m else m ++ [(e.1, [])]
      let m2 := if (alGet m1 e.2).isSome then m1 else m1 ++ [(e.2, [])]
      let m3 := alSet m2 e.1 ((alGet m2 e.1).getD [] ++ [e.2])
      alSet m3 e.2 ((alGet m3 e.2).getD [] ++ [e.1]))
    []

/-- The FIFO traversal shared by countBoundaryLoops and separateBoundaryLoops:
pop the queue head (queue.shift), record it, and enqueue its unvisited
neighbors (marking them at enqueue time).  Fuel only makes the recursion
structural. -/
def bfsLoop (adj : List (ℕ × List ℕ)) :
    ℕ → List ℕ → List ℕ → List ℕ → List ℕ × List ℕ
  | 0, visited, _, loopAcc => (visited, loopAcc)
  | fuel + 1, visited, queue, loopAcc =>
    match queue with
    | [] => (visited, loopAcc)
    | v :: rest =>
      let s := ((alGet adj v).getD []).foldl
        (fun (st : List ℕ × List ℕ) nxt =>
          if nxt ∈ st.1 then st else (st.1 ++ [nxt], st.2 ++ [nxt]))
        (visited, rest)
      bfsLoop adj fuel s.1 s.2 (loopAcc ++ [v])

/-- Iterate the adjacency keys in insertion order, starting one traversal per
unvisited key and collecting the visited components. -/
def boundaryComponents (adj : List (ℕ × List ℕ)) (fuel : ℕ) :
    List ℕ → List ℕ → List (List ℕ) → List (List ℕ)
  | [], _, comps => comps
  | v :: rest, visited, comps =>
    if v ∈ visited then boundaryComponents adj fuel rest visited comps
    else
      let r := bfsLoop adj fuel (visited ++ [v]) [v] []
      boundaryComponents adj fuel rest r.1 (comps ++ [r.2])

/-- TopologyRepair.countBoundaryLoops: the number of connected components of
the boundary-edge subgraph. -/
def countBoundaryLoops (boundaryEdges : List (ℕ × ℕ)) : ℕ :=
  if boundaryEdges.length = 0 then 0
  else
    let adj := boundaryAdj boundaryEdges
    (boundaryComponents adj (2 * boundaryEdges.length + 1) (adj.map (·.1)) [] []).length

/-- TopologyRepair.computeEuler: counts, χ = V - E + F, boundary edges in
insertion order and the boundary loop count. -/
def computeEuler (mesh : SubMesh) : TopoInfo :=
  let ec := edgeCountMap mesh.faces
  let boundaryEdges := ec.filterMap fun p => if p.2 = 1 then some p.1 else none
  { euler := (mesh.vertices.length : ℤ) - ec.length + mesh.faces.length,
    V := mesh.vertices.length,
    E := ec.length,
    F := mesh.faces.length,
    boundaryEdges := boundaryEdges,
    boundaryLoopCount := countBoundaryLoops boundaryEdges }

/-- TopologyRepair.separateBoundaryLoops: the components of the boundary graph
in traversal order, sorted by descending size (stable). -/
def separateBoundaryLoops (boundaryEdges : List (ℕ × ℕ)) : List (List ℕ) :=
  let adj := boundaryAdj boundaryEdges
  sortDescByLength
    (boundaryComponents adj (2 * boundaryEdges.length + 1) (adj.map (·.1)) [] [])

/-- TopologyRepair.sampleLoop: at most maxSamples entries, stepping by
floor(length / maxSamples). -/
def sampleLoop (loop : List ℕ) (maxSamples : ℕ) : List ℕ :=
  if loop.length ≤ maxSamples then loop
  else
    let step := loop.length / maxSamples
    if step = 0 then [loop.getD 0 0]
    else
      ((List.range loop.length).filter fun i => i % step = 0).map fun i => loop.getD i 0

/-- The bridge found between the two largest boundary loops.  The source stores
the Euclidean distance; the model stores its square, which is compared
identically. -/
structure Bridge where
  startV : ℕ
  endV : ℕ
  d2 : ℚ
deriving DecidableEq, Repr

/-- TopologyRepair.findShortestBridge: the first strictly-minimal sampled pair
(loopA sample crossed with loopB sample, in order). -/
def findShortestBridge (mesh : SubMesh) (loopA loopB : List ℕ) : Option Bridge :=
  (sampleLoop loopA 20).foldl
    (fun best vA =>
      (sampleLoop loopB 20).foldl
        (fun best vB =>
          let d := dist2 (mesh.vertices.getD vA ⟨0, 0, 0, 0, 0, 0⟩)
            (mesh.vertices.getD vB ⟨0, 0, 0, 0, 0, 0⟩)
          match best with
          | none => some ⟨vA, vB, d⟩
          | some b => if d < b.d2 then some ⟨vA, vB, d⟩ else best)
        best)
    none

/-- The vertex-to-vertex adjacency of findGeodesicPath: every vertex index gets
an (initially empty) entry, then every face edge adds both directions
(Set semantics). -/
def vertexAdj (mesh : SubMesh) : List (ℕ × List ℕ) :=
  mesh.faces.foldl
    (fun m face =>
      (faceEdges face).foldl
        (fun m e =>
          let m1 := alSet m e.1 (pushNew ((alGet m e.1).getD []) e.2)
          alSet m1 e.2 (pushNew ((alGet m1 e.2).getD []) e.1))
        m)
    ((List.range mesh.vertices.length).map fun i => (i, []))

/-- Path reconstruction of findGeodesicPath: follow the prev map from the end
vertex, prepending each node. -/
def rebuildPath (prev : List (ℕ × ℕ)) : ℕ → ℕ → List ℕ → List ℕ
  | 0, node, acc => node :: acc
  | fuel + 1, node, acc =>
    match alGet prev node with
    | none => node :: acc
    | some p => rebuildPath prev fuel p (node :: acc)

/-- The BFS of findGeodesicPath: FIFO queue, prev map recorded at enqueue
time; returns the reconstructed path when the end vertex is dequeued. -/
def geoLoop (adj : List (ℕ × List ℕ)) (endV pathFuel : ℕ) :
    ℕ → List ℕ → List (ℕ × ℕ) → List ℕ → Option (List ℕ)
  | 0, _, _, _ => none
  | fuel + 1, visited, prev, queue =>
    match queue with
    | [] => none
    | curr :: rest =>
      if curr = endV then some (rebuildPath prev pathFuel endV [])
      else
        let s := ((alGet adj curr).getD []).foldl
          (fun (st : List ℕ × List (ℕ × ℕ) × List ℕ) nxt =>
            if nxt ∈ st.1 then st
            else (st.1 ++ [nxt], alSet st.2.1 nxt curr, st.2.2 ++ [nxt]))
          (visited, prev, rest)
        geoLoop adj endV pathFuel fuel s.1 s.2.1 s.2.2

/-- TopologyRepair.findGeodesicPath: BFS shortest path in the vertex graph,
falling back to the two endpoints when no path exists. -/
def findGeodesicPath (mesh : SubMesh) (start endV : ℕ) : List ℕ :=
  let adj := vertexAdj mesh
  match geoLoop adj endV (mesh.vertices.length + 1)
      (mesh.vertices.length + 3 * mesh.faces.length + 1) [start] [] [start] with
  | some path => path
  | none => [start, endV]

/-- TopologyRepair.findNearestInSet: the first strictly-nearest member, by
squared distance. -/
def findNearestInSet (mesh : SubMesh) (vertex : ℕ) (targetSet : List ℕ) :
    Option ℕ :=
  (targetSet.foldl
      (fun (acc : Option ℕ × Option ℚ) v =>
        let d := dist2 (mesh.vertices.getD vertex ⟨0, 0, 0, 0, 0, 0⟩)
          (mesh.vertices.getD v ⟨0, 0, 0, 0, 0, 0⟩)
        match acc.2 with
        | none => (some v, some d)
        | some m => if d < m then (some v, some d) else acc)
      (none, none)).1

/-- TopologyRepair.snapPathToBoundary: prepend the nearest loopA vertex when
the path does not start on loopA, and append the nearest loopB vertex when it
does not end on loopB. -/
def snapPathToBoundary (mesh : SubMesh) (path loopA loopB : List ℕ) : List ℕ :=
  if path.length < 2 then path
  else
    let p2 :=
      if path.getD 0 0 ∈ loopA then path
      else
        match findNearestInSet mesh (path.getD 0 0) loopA with
        | some nearest => nearest :: path
        | none => path
    if p2.getD (p2.length - 1) 0 ∈ loopB then p2
    else
      match findNearestInSet mesh (p2.getD (p2.length - 1) 0) loopB with
      | some nearest => p2 ++ [nearest]
      | none => p2

/-- The face adjacency of cutMeshAlongPath: faces sharing a two-sided edge that
is not a path edge. -/
def cutFaceAdj (mesh : SubMesh) (pathEdges : List (ℕ × ℕ)) : List (List ℕ) :=
  (edgeToFacesMap mesh.faces).foldl
    (fun adj entry =>
      if entry.1 ∈ pathEdges then adj
      else
        match entry.2 with
        | [f1, f2] =>
            listModify (listModify adj f1 (fun l => pushNew l f2)) f2
              (fun l => pushNew l f1)
        | _ => adj)
    (List.replicate mesh.faces.length [])

/-- The FIFO component traversal of cutMeshAlongPath (queue.shift, collect at
pop, mark at push). -/
def groupLoop (adj : List (List ℕ)) :
    ℕ → List ℕ → List ℕ → List ℕ → List ℕ × List ℕ
  | 0, visited, _, group => (visited, group)
  | fuel + 1, visited, queue, group =>
    match queue with
    | [] => (visited, group)
    | curr :: rest =>
      let s := (adj.getD curr []).foldl
        (fun (st : List ℕ × List ℕ) nxt =>
          if nxt ∈ st.1 then st else (st.1 ++ [nxt], st.2 ++ [nxt]))
        (visited, rest)
      groupLoop adj fuel s.1 s.2 (group ++ [curr])

/-- The face groups separated by the cut path. -/
def cutGroups (adj : List (List ℕ)) (n : ℕ) : List (List ℕ) :=
  (List.range n).foldl
    (fun (acc : List ℕ × List (List ℕ)) fIdx =>
      if fIdx ∈ acc.1 then acc
      else
        let r := groupLoop adj (2 * n + 1) (acc.1 ++ [fIdx]) [fIdx] []
        (r.1, acc.2 ++ [r.2]))
    ([], []) |>.2

/-- TopologyRepair.createSubMesh: rebuild a group of faces with local indices,
copying vertices (colors included) in first-use order. -/
def createSubMesh (mesh : SubMesh) (faceIndices : List ℕ) : SubMesh :=
  let usedVertices := faceIndices.foldl
    (fun s fIdx => (mesh.faces.getD fIdx []).foldl pushNew s) []
  let vertexMap := (List.range usedVertices.length).map
    fun i => (usedVertices.getD i 0, i)
  let newVertices := usedVertices.map
    fun g => mesh.vertices.getD g ⟨0, 0, 0, 0, 0, 0⟩
  let newFaces := faceIndices.map fun fIdx =>
    (mesh.faces.getD fIdx []).map fun v => (alGet vertexMap v).getD 0
  ⟨newVertices, newFaces, vertexMap, usedVertices, faceIndices, []⟩

/-- The uncut input wrapped as its own patch (the source returns the raw input
object in the degenerate path.length < 2 branch, which both callers exclude
by checking the path length first). -/
def meshAsSubMesh (mesh : SubMesh) : SubMesh := mesh

/-- TopologyRepair.cutMeshAlongPath: remove face adjacency across the path
edges, separate the faces into connected groups, and fail (empty list) when
the mesh stays in one piece.  No vertex is duplicated. -/
def cutMeshAlongPath (mesh : SubMesh) (path : List ℕ) : List SubMesh :=
  if path.length < 2 then [meshAsSubMesh mesh]
  else
    let pathEdges := (List.range (path.length - 1)).map
      fun i => edgeKey (path.getD i 0) (path.getD (i + 1) 0)
    let adj := cutFaceAdj mesh pathEdges
    let groups := cutGroups adj mesh.faces.length
    if groups.length ≤ 1 then [] else groups.map (createSubMesh mesh)

/-- TopologyRepair.repairCylinder: bridge the two largest boundary loops with
the shortest sampled pair, BFS a geodesic between them, snap its endpoints to
the loops, and cut; none models the null failure returns. -/
def repairCylinder (mesh : SubMesh) (topo : TopoInfo) : Option (List SubMesh) :=
  let loops := separateBoundaryLoops topo.boundaryEdges
  if loops.length < 2 then none
  else
    match findShortestBridge mesh (loops.getD 0 []) (loops.getD 1 []) with
    | none => none
    | some bridge =>
      let path := findGeodesicPath mesh bridge.startV bridge.endV
      if path.length < 2 then none
      else
        let path2 := snapPathToBoundary mesh path (loops.getD 0 []) (loops.getD 1 [])
        let result := cutMeshAlongPath mesh path2
        if result.length > 0 then some result else none

/-- The farthest sampled boundary-vertex pair of repairGeneric (strict maxima,
squared distances; indices step through the boundary array). -/
def farthestPair (mesh : SubMesh) (boundaryEdges : List (ℕ × ℕ)) : ℕ × ℕ :=
  let boundaryVertices := boundaryEdges.foldl
    (fun s e => pushNew (pushNew s e.1) e.2) []
  let sampleSize := min 30 boundaryVertices.length
  let step := max 1 (boundaryVertices.length / sampleSize)
  let idxs := (List.range boundaryVertices.length).filter fun i => i % step = 0
  let r := idxs.foldl
    (fun acc i =>
      idxs.foldl
        (fun (acc : ℕ × ℕ × ℚ) j =>
          if j ≤ i then acc
          else
            let d := dist2
              (mesh.vertices.getD (boundaryVertices.getD i 0) ⟨0, 0, 0, 0, 0, 0⟩)
              (mesh.vertices.getD (boundaryVertices.getD j 0) ⟨0, 0, 0, 0, 0, 0⟩)
            if d > acc.2.2 then (boundaryVertices.getD i 0, boundaryVertices.getD j 0, d)
            else acc)
        acc)
    ((boundaryEdges.getD 0 (0, 0)).1, (boundaryEdges.getD 0 (0, 0)).2, 0)
  (r.1, r.2.1)

/-- TopologyRepair.repairGeneric: cut between the two farthest boundary
vertices, falling back to the unchanged input when there is no boundary, no
path, or the cut does not separate the mesh. -/
def repairGeneric (mesh : SubMesh) (topo : TopoInfo) : List SubMesh :=
  if topo.boundaryEdges.length = 0 then [mesh]
  else
    let pq := farthestPair mesh topo.boundaryEdges
    let path := findGeodesicPath mesh pq.1 pq.2
    if path.length < 2 then [mesh]
    else
      let result := cutMeshAlongPath mesh path
      if result.length > 0 then result else [mesh]

/-- TopologyRepair.repairAll: filter small fragments, classify each patch by
Euler characteristic and boundary loops, repair cylinders, keep spheres and
complex patches unchanged, and try the generic repair otherwise. -/
def repairAll (subMeshes : List SubMesh) (minFaces : ℕ) : List SubMesh :=
  subMeshes.foldl
    (fun results mesh =>
      if mesh.faces.length < minFaces then results
      else
        let topo := computeEuler mesh
        if topo.euler = 1 then results ++ [mesh]
        else if topo.euler = 0 ∧ topo.boundaryLoopCount ≥ 2 then
          match repairCylinder mesh topo with
          | some fixed => results ++ fixed
          | none => results ++ [mesh]
        else if topo.euler = 2 ∧ topo.boundaryLoopCount = 0 then results ++ [mesh]
        else if topo.euler < -1 then results ++ [mesh]
        else results ++ repairGeneric mesh topo)
    []

/-- A 6-vertex open triangular prism: the canonical cylinder (χ = 0, two
boundary triangles, bottom at z = 0, top at z = 3). -/
def prism : SubMesh :=
  ⟨[⟨0, 0, 0, 1, 1, 1⟩, ⟨1, 0, 0, 1, 1, 1⟩, ⟨0, 1, 0, 1, 1, 1⟩,
    ⟨0, 0, 3, 1, 1, 1⟩, ⟨1, 0, 3, 1, 1, 1⟩, ⟨0, 1, 3, 1, 1, 1⟩],
    [[0, 1, 4], [0, 4, 3], [1, 2, 5], [1, 5, 4], [2, 0, 3], [2, 3, 5]],
    [], [], [], []⟩

/-- Two triangulated annuli glued along the single edge (0, 1): a connected
pair-of-pants surface with χ = -1 and three boundary loops.  Vertices 0 and 1
are the geometrically farthest boundary pair. -/
def pants : SubMesh :=
  ⟨[⟨0, 0, 0, 1, 1, 1⟩, ⟨100, 0, 0, 1, 1, 1⟩,
    ⟨50, 8, 0, 1, 1, 1⟩, ⟨48, 4, 0, 1, 1, 1⟩, ⟨52, 4, 0, 1, 1, 1⟩, ⟨50, 6, 0, 1, 1, 1⟩,
    ⟨50, -8, 0, 1, 1, 1⟩, ⟨48, -4, 0, 1, 1, 1⟩, ⟨52, -4, 0, 1, 1, 1⟩, ⟨50, -6, 0, 1, 1, 1⟩],
    [[0, 1, 3], [1, 4, 3], [1, 2, 4], [2, 5, 4], [2, 0, 5], [0, 3, 5],
     [0, 1, 7], [1, 8, 7], [1, 6, 8], [6, 9, 8], [6, 0, 9], [0, 7, 9]],
    [], [], [], []⟩

/-- Two disjoint copies of the pants surface: χ = -2 < -1. -/
def doublePants : SubMesh :=
  ⟨[⟨0, 0, 0, 1, 1, 1⟩, ⟨100, 0, 0, 1, 1, 1⟩,
    ⟨50, 8, 0, 1, 1, 1⟩, ⟨48, 4, 0, 1, 1, 1⟩, ⟨52, 4, 0, 1, 1, 1⟩, ⟨50, 6, 0, 1, 1, 1⟩,
    ⟨50, -8, 0, 1, 1, 1⟩, ⟨48, -4, 0, 1, 1, 1⟩, ⟨52, -4, 0, 1, 1, 1⟩, ⟨50, -6, 0, 1, 1, 1⟩,
    ⟨0, 0, 20, 1, 1, 1⟩, ⟨100, 0, 20, 1, 1, 1⟩,
    ⟨50, 8, 20, 1, 1, 1⟩, ⟨48, 4, 20, 1, 1, 1⟩, ⟨52, 4, 20, 1, 1, 1⟩, ⟨50, 6, 20, 1, 1, 1⟩,
    ⟨50, -8, 20, 1, 1, 1⟩, ⟨48, -4, 20, 1, 1, 1⟩, ⟨52, -4, 20, 1, 1, 1⟩, ⟨50, -6, 20, 1, 1, 1⟩],
    [[0, 1, 3], [1, 4, 3], [1, 2, 4], [2, 5, 4], [2, 0, 5], [0, 3, 5],
     [0, 1, 7], [1, 8, 7], [1, 6, 8], [6, 9, 8], [6, 0, 9], [0, 7, 9],
     [10, 11, 13], [11, 14, 13], [11, 12, 14], [12, 15, 14], [12, 10, 15], [10, 13, 15],
     [10, 11, 17], [11, 18, 17], [11, 16, 18], [16, 19, 18], [16, 10, 19], [10, 17, 19]],
    [], [], [], []⟩

end TopologyRepair

/-! ## Vertex welding (MeshScissor.mergeVertices, src/unnamed/part_003
lines 196-291)

The source merges when `Math.sqrt(d2) <= tolerance`; for a positive tolerance
this is equivalent to `d2 <= tolerance * tolerance`, which is how the merge
test is embedded.  The spatial hash is a JS Map from the string key
`x_y_z` (floors of the coordinates divided by the cell size) to arrays of
new-vertex indices, embedded as an association list keyed by the integer
triple. -/

namespace MeshScissor

/-- State of the welding loop after some prefix of the vertices: the
vertexMap (JS Map i -> new index, entry i of the list), the accumulated new
vertices, and the spatial hash. -/
structure WeldState where
  vertexMap : List ℕ
  newVertices : List Vertex
  spatialHash : List ((ℤ × ℤ × ℤ) × List ℕ)
deriving DecidableEq, Repr

/-- getHashKey: the cell of a vertex, the floors of its coordinates divided
by the cell size. -/
def getHashKey (cellSize : ℚ) (v : Vertex) : ℤ × ℤ × ℤ :=
  (⌊v.x / cellSize⌋, ⌊v.y / cellSize⌋, ⌊v.z / cellSize⌋)

/-- The 27 cell keys checked around a vertex, in the JS triple-loop order
(dx outermost, each offset running -1, 0, 1). -/
def checkKeys (cellSize : ℚ) (v : Vertex) : List (ℤ × ℤ × ℤ) :=
  ([-1, 0, 1] : List ℤ).flatMap fun dx =>
    ([-1, 0, 1] : List ℤ).flatMap fun dy =>
      ([-1, 0, 1] : List ℤ).map fun dz =>
        ((getHashKey cellSize v).1 + dx, (getHashKey cellSize v).2.1 + dy,
          (getHashKey cellSize v).2.2 + dz)

/-- Scan of one hash bucket: the first existing index whose vertex lies
within tolerance of v (squared comparison), if any. -/
def scanBucket (tol2 : ℚ) (newVertices : List Vertex) (v : Vertex)
    (idxs : List ℕ) : Option ℕ :=
  idxs.foldl
    (fun acc eIdx =>
      match acc with
      | some e => some e
      | none =>
          if dist2 v (newVertices.getD eIdx ⟨0, 0, 0, 0, 0, 0⟩) ≤ tol2 then
            some eIdx
          else none)
    none

/-- The merge search over the candidate cells in order (the key double loop
with the `merged` flag): the first existing vertex within tolerance, if any. -/
def findMergeTarget (tol2 : ℚ) (st : WeldState) (keys : List (ℤ × ℤ × ℤ))
    (v : Vertex) : Option ℕ :=
  keys.foldl
    (fun acc key =>
      match acc with
      | some e => some e
      | none =>
          match alGet st.spatialHash key with
          | none => none
          | some idxs => scanBucket tol2 st.newVertices v idxs)
    none

/-- One iteration of the welding loop: merge vertex v into the first
existing vertex within tolerance, or insert it as a new vertex and register
it in the spatial hash. -/
def weldStep (tolerance : ℚ) (st : WeldState) (v : Vertex) : WeldState :=
  match findMergeTarget (tolerance * tolerance) st
      (checkKeys (tolerance * 10) v) v with
  | some eIdx => { st with vertexMap := st.vertexMap ++ [eIdx] }
  | none =>
      { vertexMap := st.vertexMap ++ [st.newVertices.length],
        newVertices := st.newVertices ++ [v],
        spatialHash :=
          alPush st.spatialHash (getHashKey (tolerance * 10) v)
            st.newVertices.length }

/-- Result of MeshScissor.mergeVertices. -/
structure WeldResult where
  vertices : List Vertex
  faces : List (List ℕ)
  vertexMap : List ℕ
  mergedCount : ℕ
deriving DecidableEq, Repr

/-- MeshScissor.mergeVertices: weld vertices within tolerance using the
spatial hash, remap the faces through the vertex map, and drop the faces
left with fewer than 3 distinct vertices. -/
def mergeVertices (mesh : Mesh) (tolerance : ℚ) : WeldResult :=
  let st := mesh.vertices.foldl (weldStep tolerance) ⟨[], [], []⟩
  let newFaces := mesh.faces.map fun face =>
    face.map fun u => st.vertexMap.getD u 0
  let validFaces := newFaces.filter fun face => decide (3 ≤ face.dedup.length)
  ⟨st.newVertices, validFaces, st.vertexMap,
    mesh.vertices.length - st.newVertices.length⟩

/-- Invariant of the welding loop: the accumulated vertices are pairwise
separated beyond tolerance, the hash is sound and complete for them, and
the vertex map targets them. -/
def WeldInv (tol : ℚ) (st : WeldState) : Prop :=
  st.newVertices.Pairwise (fun a b => tol * tol < dist2 a b) ∧
  (∀ key l, (key, l) ∈ st.spatialHash → ∀ j ∈ l,
      j < st.newVertices.length ∧
      getHashKey (tol * 10) (st.newVertices.getD j ⟨0, 0, 0, 0, 0, 0⟩) =
        key) ∧
  (∀ j, j < st.newVertices.length →
      ∃ l, alGet st.spatialHash
          (getHashKey (tol * 10)
            (st.newVertices.getD j ⟨0, 0, 0, 0, 0, 0⟩)) = some l ∧
        j ∈ l) ∧
  (∀ i ∈ st.vertexMap, i < st.newVertices.length)

end MeshScissor

/-- Concrete mesh for welding tests: two coincident vertices, one more
within tolerance 1 of them, and two distant ones. -/
def c6mesh : Mesh :=
  ⟨[⟨0, 0, 0, 1, 1, 1⟩, ⟨0, 0, 0, 1, 1, 1⟩, ⟨5, 0, 0, 1, 1, 1⟩,
    ⟨0, 5, 0, 1, 1, 1⟩, ⟨1/2, 0, 0, 1, 1, 1⟩],
    [[0, 1, 2], [0, 2, 3], [1, 3, 2], [0, 1, 4]]⟩

/-! ## Orchestrator shelf packer (part_006, ClothFlattenerApp.arrangePatterns) -/

namespace ClothFlattenerApp

/-- A pattern's UV bounding box. -/
structure Bounds where
  minU : ℚ
  maxU : ℚ
  minV : ℚ
  maxV : ℚ
deriving DecidableEq, Repr

/-- A flattened pattern as the packer sees it: its UVs and its bounds. -/
structure Pattern where
  uv : List (ℚ × ℚ)
  bounds : Bounds
deriving DecidableEq, Repr

/-- One placement of arrangePatterns: wrap to a new row when the pattern
would exceed the row width (and the row is nonempty), then translate the
pattern so its box starts at the cursor, and advance the cursor.  The state
is (currentX, currentY, rowHeight); padding 0.02, maxWidth 4. -/
def arrangeStep (p : Pattern) (st : ℚ × ℚ × ℚ) : Pattern × (ℚ × ℚ × ℚ) :=
  let width := p.bounds.maxU - p.bounds.minU
  let height := p.bounds.maxV - p.bounds.minV
  let row :=
    if st.1 + width > 4 ∧ st.1 > 0 then ((0 : ℚ), st.2.1 + st.2.2 + 0.02, (0 : ℚ))
    else st
  let offsetU := row.1 - p.bounds.minU
  let offsetV := row.2.1 - p.bounds.minV
  (⟨p.uv.map fun q => (q.1 + offsetU, q.2 + offsetV),
      ⟨p.bounds.minU + offsetU, p.bounds.maxU + offsetU,
        p.bounds.minV + offsetV, p.bounds.maxV + offsetV⟩⟩,
    (row.1 + width + 0.02, row.2.1, max row.2.2 height))

/-- The placement loop of arrangePatterns. -/
def arrangeLoop : List Pattern → (ℚ × ℚ × ℚ) → List Pattern → List Pattern
  | [], _, acc => acc
  | p :: rest, st, acc =>
    let r := arrangeStep p st
    arrangeLoop rest r.2 (acc ++ [r.1])

/-- ClothFlattenerApp.arrangePatterns (part_006 lines 2234-2273): simple shelf
packing of the patterns in order. -/
def arrangePatterns (patterns : List Pattern) : List Pattern :=
  if patterns.length = 0 then patterns
  else arrangeLoop patterns (0, 0, 0) []

/-- Two axis-aligned boxes are disjoint (strictly separated on some axis). -/
def boxDisjoint (a b : Bounds) : Prop :=
  a.maxU < b.minU ∨ b.maxU < a.minU ∨ a.maxV < b.minV ∨ b.maxV < a.minV

/-- The shelf invariant: nonnegative cursor and row height, and every placed
box either lies in the current row (bottom at currentY, top within the row
height, right edge at least one padding left of the cursor) or in a finished
row (top at least one padding below currentY). -/
def RowInv (st : ℚ × ℚ × ℚ) (bs : List Bounds) : Prop :=
  0 ≤ st.1 ∧ 0 ≤ st.2.2 ∧
    ∀ b ∈ bs,
      (b.minV = st.2.1 ∧ b.maxV ≤ st.2.1 + st.2.2 ∧ b.maxU ≤ st.1 - 0.02 ∧ 0 < st.1) ∨
        b.maxV ≤ st.2.1 - 0.02

end ClothFlattenerApp

/-! ## Physics relaxer (src/js/PhysicsFlattener.js)

Differentiated mass-spring relaxation; spring lengths use the exact rational
square root (every length taken in the concrete runs below is a perfect
square of a rational, and the general drift theorem holds for any returned
value). -/

namespace PhysicsFlattener

/-- A spring constraint of buildDifferentiatedConstraints. -/
structure Constraint where
  u : ℕ
  v : ℕ
  restLength : ℚ
  stiffness : ℚ
  isBoundary : Bool
deriving DecidableEq, Repr

/-- PhysicsFlattener.identifyBoundary: boundary vertices and boundary edges
(edges of incidence one), via the same edge-count map the topology module
builds. -/
def identifyBoundary (faces : List (List ℕ)) : List ℕ × List (ℕ × ℕ) :=
  (TopologyRepair.edgeCountMap faces).foldl
    (fun (acc : List ℕ × List (ℕ × ℕ)) p =>
      if p.2 = 1 then (pushNew (pushNew acc.1 p.1.1) p.1.2, acc.2 ++ [p.1]) else acc)
    ([], [])

/-- PhysicsFlattener.buildDifferentiatedConstraints: one spring per unique
edge; rest length is the 3D length; boundary edges get the boundary
stiffness, interior edges the interior stiffness; springs shorter than 1e-10
are dropped. -/
def buildDifferentiatedConstraints (vertices : List Vertex)
    (faces : List (List ℕ)) (boundaryEdges : List (ℕ × ℕ))
    (boundaryK internalK : ℚ) : List Constraint :=
  (faces.foldl
      (fun (acc : List (ℕ × ℕ) × List Constraint) face =>
        (faceEdges face).foldl
          (fun acc e =>
            let key := edgeKey e.1 e.2
            if key ∈ acc.1 then acc
            else
              let vU := vertices.getD e.1 ⟨0, 0, 0, 0, 0, 0⟩
              let vV := vertices.getD e.2 ⟨0, 0, 0, 0, 0, 0⟩
              let restLength := ratSqrt (dist2 vU vV)
              if restLength < 1 / 10 ^ 10 then (acc.1 ++ [key], acc.2)
              else
                (acc.1 ++ [key],
                  acc.2 ++ [⟨e.1, e.2, restLength,
                    if key ∈ boundaryEdges then boundaryK else internalK,
                    decide (key ∈ boundaryEdges)⟩])
          )
          acc)
      ([], [])).2

/-- PhysicsFlattener.physicsStep: accumulate spring forces (skipping
degenerate springs), then integrate; with pinned boundary the boundary
vertices get zero velocity and keep their position.  dt = 0.016, mass 1. -/
def physicsStep (uvs vels : List (ℚ × ℚ)) (constraints : List Constraint)
    (boundaryVerts : List ℕ) (pinBoundary : Bool) (damping : ℚ) :
    List (ℚ × ℚ) × List (ℚ × ℚ) :=
  let forces := constraints.foldl
    (fun f c =>
      let du := (uvs.getD c.v (0, 0)).1 - (uvs.getD c.u (0, 0)).1
      let dv := (uvs.getD c.v (0, 0)).2 - (uvs.getD c.u (0, 0)).2
      let currentLen := ratSqrt (du * du + dv * dv)
      if currentLen < 1 / 10 ^ 10 then f
      else
        let forceMag := c.stiffness * (currentLen - c.restLength) / currentLen
        let f1 := f.set c.u ((f.getD c.u (0, 0)).1 + du * forceMag,
          (f.getD c.u (0, 0)).2 + dv * forceMag)
        f1.set c.v ((f1.getD c.v (0, 0)).1 - du * forceMag,
          (f1.getD c.v (0, 0)).2 - dv * forceMag))
    (List.replicate uvs.length ((0 : ℚ), (0 : ℚ)))
  let dt : ℚ := 0.016
  let pairs := (List.range uvs.length).map fun i =>
    if pinBoundary ∧ i ∈ boundaryVerts then (uvs.getD i (0, 0), ((0 : ℚ), (0 : ℚ)))
    else
      let vx := ((vels.getD i (0, 0)).1 + (forces.getD i (0, 0)).1 * dt) * damping
      let vy := ((vels.getD i (0, 0)).2 + (forces.getD i (0, 0)).2 * dt) * damping
      (((uvs.getD i (0, 0)).1 + vx * dt, (uvs.getD i (0, 0)).2 + vy * dt), (vx, vy))
  (pairs.map (·.1), pairs.map (·.2))

/-- The centroid of a UV list (sum over count). -/
def centroid (uvs : List (ℚ × ℚ)) : ℚ × ℚ :=
  ((uvs.map (·.1)).sum / uvs.length, (uvs.map (·.2)).sum / uvs.length)

/-- The drift cancellation of relaxDifferentiated: translate every vertex so
the centroid returns to the initial centroid. -/
def driftCancel (uvs : List (ℚ × ℚ)) (initialCenter : ℚ × ℚ) : List (ℚ × ℚ) :=
  let c := centroid uvs
  uvs.map fun q => (q.1 + (initialCenter.1 - c.1), q.2 + (initialCenter.2 - c.2))

/-- The options of relaxDifferentiated. -/
structure RelaxOptions where
  iterations : ℕ
  boundaryStiffness : ℚ
  internalStiffness : ℚ
  pinBoundary : Bool
  damping : ℚ
deriving DecidableEq, Repr

/-- The relaxation loop state: positions, velocities, and the annealed global
damping factor. -/
structure RelaxState where
  uvs : List (ℚ × ℚ)
  vels : List (ℚ × ℚ)
  currentDamping : ℚ
deriving DecidableEq, Repr

/-- One iteration of the relaxDifferentiated loop (iteration index iter):
physics step, drift cancellation unless the boundary is pinned, and damping
annealing in the last 40 percent of the iterations. -/
def relaxIter (constraints : List Constraint) (boundaryVerts : List ℕ)
    (opts : RelaxOptions) (initialCenter : ℚ × ℚ) (iter : ℕ)
    (s : RelaxState) : RelaxState :=
  let r := physicsStep s.uvs s.vels constraints boundaryVerts opts.pinBoundary
    s.currentDamping
  let uvs2 := if opts.pinBoundary = false then driftCancel r.1 initialCenter else r.1
  let damping2 :=
    if (iter : ℚ) > (opts.iterations : ℚ) * 0.6 then s.currentDamping * opts.damping
    else s.currentDamping
  ⟨uvs2, r.2, damping2⟩

/-- The initial state of relaxDifferentiated: positions copied entry by entry
(missing entries read as 0), zero velocities, damping 1. -/
def relaxInit (subMesh : SubMesh) (initialUV : List (ℚ × ℚ)) : RelaxState :=
  ⟨(List.range subMesh.vertices.length).map fun i => initialUV.getD i (0, 0),
    List.replicate subMesh.vertices.length ((0 : ℚ), (0 : ℚ)), 1⟩

/-- The state after k iterations of the relaxDifferentiated loop. -/
def relaxRun (subMesh : SubMesh) (initialUV : List (ℚ × ℚ))
    (opts : RelaxOptions) : ℕ → RelaxState
  | 0 => relaxInit subMesh initialUV
  | k + 1 =>
    relaxIter
      (buildDifferentiatedConstraints subMesh.vertices subMesh.faces
        (identifyBoundary subMesh.faces).2 opts.boundaryStiffness
        opts.internalStiffness)
      (identifyBoundary subMesh.faces).1 opts
      (centroid (relaxInit subMesh initialUV).uvs) k
      (relaxRun subMesh initialUV opts k)

/-- PhysicsFlattener.relaxDifferentiated: guard degenerate input, then iterate
the physics loop. -/
def relaxDifferentiated (subMesh : SubMesh) (initialUV : List (ℚ × ℚ))
    (opts : RelaxOptions) : List (ℚ × ℚ) :=
  if subMesh.vertices.length < 3 ∨ initialUV.length ≠ subMesh.vertices.length then
    initialUV
  else (relaxRun subMesh initialUV opts opts.iterations).uvs

/-- The triangle fan with one interior vertex (vertex 3) used for the pinned
counterexample run: all 3D vertices on the x-axis, so every spring length is
an exact rational. -/
def fanMesh : SubMesh :=
  ⟨[⟨0, 0, 0, 1, 1, 1⟩, ⟨1, 0, 0, 1, 1, 1⟩, ⟨2, 0, 0, 1, 1, 1⟩, ⟨3, 0, 0, 1, 1, 1⟩],
    [[0, 1, 3], [1, 2, 3], [2, 0, 3]], [], [], [], []⟩

/-- The initial UVs of the counterexample run (collinear, interior vertex
displaced). -/
def fanUV : List (ℚ × ℚ) := [(0, 0), (1, 0), (2, 0), (1/2, 0)]

/-- The pinned options of the counterexample run: two iterations with the
default stiffnesses and damping, pinBoundary = true. -/
def fanOpts : RelaxOptions := ⟨2, 50, 1/5, true, 0.995⟩

end PhysicsFlattener

end ClothFlatten

namespace ClothFlatten

/-! # Theorems -/

/-- C3 counterexample: the color (0.7, 0, 0) lies on the threshold boundary and
satisfies the specification's inclusive red predicate, but the code's strict
comparison (r > 0.7) excludes it: with the orchestrator's thresholds
(0.7, 0.4, 0.4) the extractor returns no red vertex for it. -/
theorem c3_boundary_color_not_red :
    specRedPredicate ⟨7/10, 0, 0⟩ ∧
      extractRedVertices (7/10) (2/5) (2/5) true [⟨7/10, 0, 0⟩] = [] := by
  constructor
  · exact ⟨by norm_num, by norm_num, by norm_num⟩
  · norm_num [extractRedVertices, List.filter]

/-- C3 amended: with the orchestrator's thresholds (0.7, 0.4, 0.4), a vertex is
classified as red exactly when its color satisfies r > 0.7 and g < 0.4 and
b < 0.4 (all comparisons strict); threshold-boundary colors are not red. -/
theorem c3_red_iff_strict (colors : List Color) (i : ℕ) (h : i < colors.length) :
    i ∈ extractRedVertices (7/10) (2/5) (2/5) true colors ↔
      ((colors.getD i ⟨0, 0, 0⟩).r > 7/10 ∧ (colors.getD i ⟨0, 0, 0⟩).g < 2/5 ∧
        (colors.getD i ⟨0, 0, 0⟩).b < 2/5) := by
  have hne : ¬ (true = false) := by simp
  simp only [extractRedVertices, if_neg hne, List.mem_filter,
    List.mem_range, Bool.and_eq_true, decide_eq_true_eq]
  exact ⟨fun h2 => ⟨h2.2.1.1, h2.2.1.2, h2.2.2⟩,
    fun h2 => ⟨h, ⟨h2.1, h2.2.1⟩, h2.2.2⟩⟩

/-- C3 witness: the amended characterization evaluated at a concrete color list
(index 0 is strictly red, so it is extracted). -/
theorem c3_red_iff_strict_witness :
    0 ∈ extractRedVertices (7/10) (2/5) (2/5) true [⟨1, 0, 0⟩] :=
  (c3_red_iff_strict [⟨1, 0, 0⟩] 0 (by decide)).mpr
    ⟨by norm_num, by norm_num, by norm_num⟩

/-- C4 counterexample: a relaxed UV list of the right length containing NaN is
accepted as-is by the orchestrator; the initial embedding is not substituted
even though the relaxer produced a non-finite coordinate. -/
theorem c4_nonfinite_accepted :
    chooseFinalUV 1 (some [⟨JsNum.nan, JsNum.fin 0⟩]) [⟨JsNum.fin 0, JsNum.fin 0⟩]
        [⟨JsNum.fin 1, JsNum.fin 1⟩] = [⟨JsNum.nan, JsNum.fin 0⟩] ∧
      uvListFinite [⟨JsNum.nan, JsNum.fin 0⟩] = false := by
  decide

/-- C4 amended: the orchestrator substitutes the initial embedding only when the
relaxer throws or returns a list whose length differs from the vertex count;
any relaxed list with exactly one UV per vertex is accepted unchanged,
finite or not, and on a thrown relaxation the initial embedding is itself
accepted exactly when it has one UV per vertex (otherwise the planar
projection is used). -/
theorem c4_acceptance_is_length_only (n : ℕ) (r initialUV planar : List UVJ)
    (h : r.length = n) :
    chooseFinalUV n (some r) initialUV planar = r ∧
      chooseFinalUV n none initialUV planar =
        (if initialUV.length = n then initialUV else planar) := by
  constructor
  · simp [chooseFinalUV, h]
  · by_cases h2 : initialUV.length = n <;> simp [chooseFinalUV, h2]

/-- C4 witness: the amended acceptance rule evaluated on concrete lists. -/
theorem c4_acceptance_is_length_only_witness :
    chooseFinalUV 1 (some [⟨JsNum.fin 2, JsNum.fin 3⟩]) [] [] =
        [⟨JsNum.fin 2, JsNum.fin 3⟩] ∧
      chooseFinalUV 1 none [] [] = (if ([] : List UVJ).length = 1 then [] else []) :=
  c4_acceptance_is_length_only 1 [⟨JsNum.fin 2, JsNum.fin 3⟩] [] [] (by decide)

/-- A successful buildSubMeshWithKerf keeps exactly the red-free faces as its
original-face list and colors every rebuilt vertex white. -/
theorem buildSubMeshWithKerf_some (mesh : Mesh) (fi red : List ℕ) (sm : SubMesh)
    (h : FloodSegmenter.buildSubMeshWithKerf mesh fi red = some sm) :
    sm.originalFaceIndices =
        (fi.filter fun fIdx =>
          !((mesh.faces.getD fIdx []).any fun vIdx => decide (vIdx ∈ red))) ∧
      ∀ v ∈ sm.vertices, v.r = 1 ∧ v.g = 1 ∧ v.b = 1 := by
  simp only [FloodSegmenter.buildSubMeshWithKerf] at h
  split at h
  · exact absurd h (by simp)
  · rw [Option.some_inj] at h
    subst h
    refine ⟨rfl, ?_⟩
    intro v hv
    simp only [List.mem_map] at hv
    obtain ⟨g, -, rfl⟩ := hv
    exact ⟨rfl, rfl, rfl⟩

/-- Every patch emitted by segmentWithSeams is, up to its internal-red
annotation, a successful kerf rebuild of one of the surviving islands. -/
theorem mem_segmentWithSeams (mesh : Mesh) (seamEdges : List (ℕ × ℕ))
    (minFaces : ℕ) (assignB : Bool) (red : List ℕ) (sm : SubMesh)
    (h : sm ∈ FloodSegmenter.segmentWithSeams mesh seamEdges minFaces assignB red) :
    ∃ fi sm0, FloodSegmenter.buildSubMeshWithKerf mesh fi red = some sm0 ∧
      sm.originalFaceIndices = sm0.originalFaceIndices ∧ sm.vertices = sm0.vertices := by
  simp only [FloodSegmenter.segmentWithSeams, List.mem_filterMap] at h
  obtain ⟨fi, -, hsome⟩ := h
  cases hbk : FloodSegmenter.buildSubMeshWithKerf mesh fi red with
  | none =>
    rw [hbk] at hsome
    exact absurd hsome (by simp)
  | some sm0 =>
    rw [hbk] at hsome
    simp only at hsome
    split at hsome
    · rw [Option.some_inj] at hsome
      subst hsome
      exact ⟨fi, sm0, hbk, rfl, rfl⟩
    · exact absurd hsome (by simp)

/-- C2 (kerf correctness): for every input mesh, barrier edge set, options and
red-vertex set, no face of any patch emitted by the flood segmenter has even
one red vertex. -/
theorem c2_no_emitted_face_touches_red (mesh : Mesh) (seamEdges : List (ℕ × ℕ))
    (minFaces : ℕ) (assignB : Bool) (red : List ℕ) (sm : SubMesh)
    (hsm : sm ∈ FloodSegmenter.segmentWithSeams mesh seamEdges minFaces assignB red)
    (fIdx : ℕ) (hf : fIdx ∈ sm.originalFaceIndices)
    (v : ℕ) (hv : v ∈ mesh.faces.getD fIdx []) : v ∉ red := by
  obtain ⟨fi, sm0, hbk, horig, -⟩ :=
    mem_segmentWithSeams mesh seamEdges minFaces assignB red sm hsm
  have h2 := (buildSubMeshWithKerf_some mesh fi red sm0 hbk).1
  rw [horig, h2, List.mem_filter] at hf
  intro hvred
  have := hf.2
  simp only [Bool.not_eq_true', List.any_eq_false, decide_eq_true_eq] at this
  exact this v hv hvred

/-- C2 witness: on the concrete two-triangle mesh with red vertex 3, the
emitted patch is smW, whose only face (face 0 of the mesh) avoids the red
vertex. -/
theorem c2_no_emitted_face_touches_red_witness :
    FloodSegmenter.smW ∈
        FloodSegmenter.segmentWithSeams FloodSegmenter.meshW [] 1 true [3] ∧
      (0 : ℕ) ∉ ([3] : List ℕ) := by
  have hm : FloodSegmenter.smW ∈
      FloodSegmenter.segmentWithSeams FloodSegmenter.meshW [] 1 true [3] := by decide
  exact ⟨hm,
    c2_no_emitted_face_touches_red FloodSegmenter.meshW [] 1 true [3]
      FloodSegmenter.smW hm 0 (by decide) 0 (by decide)⟩

/-- C10: every vertex of every patch emitted by the flood segmenter carries the
color (1, 1, 1): the kerf rebuild overwrites each copied vertex color with
white. -/
theorem c10_emitted_vertices_white (mesh : Mesh) (seamEdges : List (ℕ × ℕ))
    (minFaces : ℕ) (assignB : Bool) (red : List ℕ) (sm : SubMesh)
    (hsm : sm ∈ FloodSegmenter.segmentWithSeams mesh seamEdges minFaces assignB red)
    (v : Vertex) (hv : v ∈ sm.vertices) : v.r = 1 ∧ v.g = 1 ∧ v.b = 1 := by
  obtain ⟨fi, sm0, hbk, -, hverts⟩ :=
    mem_segmentWithSeams mesh seamEdges minFaces assignB red sm hsm
  have h2 := (buildSubMeshWithKerf_some mesh fi red sm0 hbk).2
  rw [hverts] at hv
  exact h2 v hv

/-- C1 (code bug): on the canonical cylinder (the open triangular prism, with
χ = 0 and 2 boundary loops), the geodesic-cut surgery fails: cutMeshAlongPath
merely separates face-adjacency across the path without duplicating vertices,
a boundary-to-boundary path never disconnects a cylinder, so repairCylinder
returns none and no χ = 1 patch is ever produced. -/
theorem c1_cylinder_repair_fails_on_prism :
    (TopologyRepair.computeEuler TopologyRepair.prism).euler = 0 ∧
      (TopologyRepair.computeEuler TopologyRepair.prism).boundaryLoopCount = 2 ∧
      TopologyRepair.repairCylinder TopologyRepair.prism
        (TopologyRepair.computeEuler TopologyRepair.prism) = none := by
  have hE : TopologyRepair.computeEuler TopologyRepair.prism =
      ⟨0, 6, 12, 6, [(0, 1), (3, 4), (1, 2), (4, 5), (0, 2), (3, 5)], 2⟩ := by decide
  have hLoops : TopologyRepair.separateBoundaryLoops
      [(0, 1), (3, 4), (1, 2), (4, 5), (0, 2), (3, 5)] = [[0, 1, 2], [3, 4, 5]] := by
    decide
  have hBridge : TopologyRepair.findShortestBridge TopologyRepair.prism
      [0, 1, 2] [3, 4, 5] = some ⟨0, 3, 9⟩ := by
    norm_num [TopologyRepair.findShortestBridge, TopologyRepair.sampleLoop, dist2,
      TopologyRepair.prism]
  have hGeo : TopologyRepair.findGeodesicPath TopologyRepair.prism 0 3 = [0, 3] := by
    decide
  have hSnap : TopologyRepair.snapPathToBoundary TopologyRepair.prism [0, 3]
      [0, 1, 2] [3, 4, 5] = [0, 3] := by decide
  have hCut : TopologyRepair.cutMeshAlongPath TopologyRepair.prism [0, 3] = [] := by
    decide
  rw [hE]
  refine ⟨rfl, rfl, ?_⟩
  simp only [TopologyRepair.repairCylinder, hLoops, List.getD_cons_zero,
    List.getD_cons_succ, List.length_cons, List.length_nil]
  rw [hBridge]
  simp only [hGeo, hSnap, hCut, List.length_cons, List.length_nil]
  norm_num

/-- C8 counterexample: the pants patch has χ = -1, yet the repair stage does
not emit it unchanged: χ = -1 misses the euler < -1 skip branch and falls
into the generic repair, which cuts the patch in two. -/
theorem c8_chi_minus_one_is_cut :
    (TopologyRepair.computeEuler TopologyRepair.pants).euler = -1 ∧
      TopologyRepair.repairAll [TopologyRepair.pants] 1 ≠ [TopologyRepair.pants] := by
  have hE : TopologyRepair.computeEuler TopologyRepair.pants = ⟨-1, 10, 23, 12,
      [(3, 4), (1, 2), (4, 5), (0, 2), (3, 5), (7, 8), (1, 6), (8, 9), (0, 6), (7, 9)],
      3⟩ := by decide
  have hidx : (List.range 10).filter (fun i => decide (i % 1 = 0)) =
      [0, 1, 2, 3, 4, 5, 6, 7, 8, 9] := by decide
  have hbv : ([(3, 4), (1, 2), (4, 5), (0, 2), (3, 5), (7, 8), (1, 6), (8, 9), (0, 6),
      (7, 9)] : List (ℕ × ℕ)).foldl (fun s e => pushNew (pushNew s e.1) e.2) [] =
      [3, 4, 1, 2, 5, 0, 7, 8, 6, 9] := by decide
  have hFar : TopologyRepair.farthestPair TopologyRepair.pants
      [(3, 4), (1, 2), (4, 5), (0, 2), (3, 5), (7, 8), (1, 6), (8, 9), (0, 6), (7, 9)] =
      (1, 0) := by
    simp only [TopologyRepair.farthestPair, hbv, List.length_cons, List.length_nil]
    norm_num [hidx, dist2, TopologyRepair.pants]
  have hGeo : TopologyRepair.findGeodesicPath TopologyRepair.pants 1 0 = [1, 0] := by
    decide
  have hCut : (TopologyRepair.cutMeshAlongPath TopologyRepair.pants [1, 0]).length = 2 := by
    decide
  have hlen : (TopologyRepair.repairAll [TopologyRepair.pants] 1).length = 2 := by
    simp only [TopologyRepair.repairAll, List.foldl_cons, List.foldl_nil, hE]
    norm_num [TopologyRepair.repairGeneric, hFar, hGeo, hCut]
    rw [if_neg (show ¬ TopologyRepair.pants.faces = [] by simp [TopologyRepair.pants])]
    exact hCut
  refine ⟨by rw [hE], fun hcontra => ?_⟩
  rw [hcontra] at hlen
  simp at hlen

/-- C8 amended: the repair stage skips exactly the patches with χ strictly
less than -1 (χ = -1 falls into the generic repair): every surviving patch
with χ < -1 is emitted unchanged, with no cut attempted. -/
theorem c8_complex_patches_skipped (m : SubMesh) (minFaces : ℕ)
    (h1 : minFaces ≤ m.faces.length)
    (h2 : (TopologyRepair.computeEuler m).euler < -1) :
    TopologyRepair.repairAll [m] minFaces = [m] := by
  simp only [TopologyRepair.repairAll, List.foldl_cons, List.foldl_nil]
  rw [if_neg (by omega : ¬ m.faces.length < minFaces),
    if_neg (by omega : ¬ (TopologyRepair.computeEuler m).euler = 1),
    if_neg (by rintro ⟨h, -⟩; omega),
    if_neg (by rintro ⟨h, -⟩; omega),
    if_pos h2]
  simp

/-- C8 witness: the disjoint double-pants patch has χ = -2 < -1 and survives
the repair stage unchanged. -/
theorem c8_complex_patches_skipped_witness :
    1 ≤ TopologyRepair.doublePants.faces.length ∧
      (TopologyRepair.computeEuler TopologyRepair.doublePants).euler < -1 ∧
      TopologyRepair.repairAll [TopologyRepair.doublePants] 1 =
        [TopologyRepair.doublePants] :=
  ⟨by decide, by decide,
    c8_complex_patches_skipped TopologyRepair.doublePants 1 (by decide) (by decide)⟩

/-- One packer placement preserves the shelf invariant and is disjoint from
everything already placed. -/
theorem arrangeStep_spec (p : ClothFlattenerApp.Pattern) (st : ℚ × ℚ × ℚ)
    (bs : List ClothFlattenerApp.Bounds)
    (hw : p.bounds.minU ≤ p.bounds.maxU)
    (hinv : ClothFlattenerApp.RowInv st bs) :
    ClothFlattenerApp.RowInv (ClothFlattenerApp.arrangeStep p st).2
        (bs ++ [(ClothFlattenerApp.arrangeStep p st).1.bounds]) ∧
      ∀ b ∈ bs, ClothFlattenerApp.boxDisjoint b
        (ClothFlattenerApp.arrangeStep p st).1.bounds := by
  obtain ⟨hx, hrh, hall⟩ := hinv
  simp only [ClothFlattenerApp.arrangeStep]
  split
  case isTrue hcond =>
    refine ⟨⟨by linarith, le_max_left _ _, ?_⟩, ?_⟩
    · intro b hb
      rw [List.mem_append] at hb
      rcases hb with hb | hb
      · right
        rcases hall b hb with ⟨h1, h2, h3, h4⟩ | h1
        · simp only; linarith
        · simp only; linarith
      · rw [List.mem_singleton] at hb
        subst hb
        left
        refine ⟨by ring, ?_, by simp only; linarith, by linarith⟩
        simp only
        have hmr := le_max_right (0 : ℚ) (p.bounds.maxV - p.bounds.minV)
        linarith
    · intro b hb
      rcases hall b hb with ⟨h1, h2, h3, h4⟩ | h1
      · right; right; left
        simp only; linarith
      · right; right; left
        simp only; linarith
  case isFalse hcond =>
    refine ⟨⟨by linarith, le_trans hrh (le_max_left _ _), ?_⟩, ?_⟩
    · intro b hb
      rw [List.mem_append] at hb
      rcases hb with hb | hb
      · rcases hall b hb with ⟨h1, h2, h3, h4⟩ | h1
        · left
          refine ⟨h1, ?_, by simp only; linarith, by simp only; linarith⟩
          simp only
          have hml := le_max_left st.2.2 (p.bounds.maxV - p.bounds.minV)
          linarith
        · right; exact h1
      · rw [List.mem_singleton] at hb
        subst hb
        left
        refine ⟨by ring, ?_, by simp only; linarith, by simp only; linarith⟩
        simp only
        have hmr := le_max_right st.2.2 (p.bounds.maxV - p.bounds.minV)
        linarith
    · intro b hb
      rcases hall b hb with ⟨h1, h2, h3, h4⟩ | h1
      · left
        simp only; linarith
      · right; right; left
        simp only; linarith

/-- The packer loop keeps the placed boxes pairwise disjoint. -/
theorem arrangeLoop_pairwise (ps : List ClothFlattenerApp.Pattern) :
    ∀ (st : ℚ × ℚ × ℚ) (acc : List ClothFlattenerApp.Pattern),
      (∀ p ∈ ps, p.bounds.minU ≤ p.bounds.maxU) →
      ClothFlattenerApp.RowInv st (acc.map (·.bounds)) →
      List.Pairwise (fun a b => ClothFlattenerApp.boxDisjoint a.bounds b.bounds) acc →
      List.Pairwise (fun a b => ClothFlattenerApp.boxDisjoint a.bounds b.bounds)
        (ClothFlattenerApp.arrangeLoop ps st acc) := by
  induction ps with
  | nil =>
    intro st acc h hinv hpw
    simpa [ClothFlattenerApp.arrangeLoop] using hpw
  | cons p rest ih =>
    intro st acc h hinv hpw
    simp only [ClothFlattenerApp.arrangeLoop]
    have hspec := arrangeStep_spec p st (acc.map (·.bounds))
      (h p (List.mem_cons_self _ _)) hinv
    apply ih _ _ fun q hq => h q (List.mem_cons_of_mem _ hq)
    · simpa [List.map_append] using hspec.1
    · rw [List.pairwise_append]
      refine ⟨hpw, List.pairwise_singleton _ _, ?_⟩
      intro a ha b hb
      rw [List.mem_singleton] at hb
      subst hb
      exact hspec.2 a.bounds (List.mem_map_of_mem _ ha)

/-- C9 (packing non-overlap): after shelf packing, the bounding boxes of any
two distinct packed patches are disjoint in the final UV domain (every input
pattern has well-formed bounds, minU ≤ maxU and minV ≤ maxV). -/
theorem c9_packed_boxes_disjoint (patterns : List ClothFlattenerApp.Pattern)
    (h : ∀ p ∈ patterns,
      p.bounds.minU ≤ p.bounds.maxU ∧ p.bounds.minV ≤ p.bounds.maxV) :
    List.Pairwise (fun a b => ClothFlattenerApp.boxDisjoint a.bounds b.bounds)
      (ClothFlattenerApp.arrangePatterns patterns) := by
  rw [ClothFlattenerApp.arrangePatterns]
  split
  case isTrue hlen =>
    rw [List.length_eq_zero] at hlen
    subst hlen
    exact List.Pairwise.nil
  case isFalse hlen =>
    apply arrangeLoop_pairwise patterns (0, 0, 0) [] fun p hp => (h p hp).1
    · exact ⟨le_refl 0, le_refl 0, by simp⟩
    · exact List.Pairwise.nil

/-- C9 witness: three concrete patterns (the second forces a row wrap) pack
into pairwise disjoint boxes. -/
theorem c9_packed_boxes_disjoint_witness :
    (∀ p ∈ ([⟨[(0, 0), (3, 1)], ⟨0, 3, 0, 1⟩⟩, ⟨[(0, 0), (2, 2)], ⟨0, 2, 0, 2⟩⟩,
        ⟨[(1, 1)], ⟨1, 1, 1, 1⟩⟩] : List ClothFlattenerApp.Pattern),
      p.bounds.minU ≤ p.bounds.maxU ∧ p.bounds.minV ≤ p.bounds.maxV) ∧
      List.Pairwise (fun a b => ClothFlattenerApp.boxDisjoint a.bounds b.bounds)
        (ClothFlattenerApp.arrangePatterns
          [⟨[(0, 0), (3, 1)], ⟨0, 3, 0, 1⟩⟩, ⟨[(0, 0), (2, 2)], ⟨0, 2, 0, 2⟩⟩,
            ⟨[(1, 1)], ⟨1, 1, 1, 1⟩⟩]) := by
  have h : ∀ p ∈ ([⟨[(0, 0), (3, 1)], ⟨0, 3, 0, 1⟩⟩, ⟨[(0, 0), (2, 2)], ⟨0, 2, 0, 2⟩⟩,
      ⟨[(1, 1)], ⟨1, 1, 1, 1⟩⟩] : List ClothFlattenerApp.Pattern),
      p.bounds.minU ≤ p.bounds.maxU ∧ p.bounds.minV ≤ p.bounds.maxV := by
    intro p hp
    simp only [List.mem_cons, List.not_mem_nil, or_false] at hp
    rcases hp with rfl | rfl | rfl <;> exact ⟨by norm_num, by norm_num⟩
  exact ⟨h, c9_packed_boxes_disjoint _ h⟩

/-- The exact rational square root of a square of a nonnegative rational. -/
theorem ratSqrt_sq (p : ℚ) (hp : 0 ≤ p) : ratSqrt (p * p) = p := by
  have h0 : 0 ≤ p.num := Rat.num_nonneg.mpr hp
  have hnumAbs : ((p * p).num).toNat = p.num.natAbs * p.num.natAbs := by
    rw [Rat.mul_self_num, ← Int.natAbs_mul_self, Int.toNat_natCast]
  have hsn : Nat.sqrt ((p * p).num.toNat) = p.num.natAbs := by
    rw [hnumAbs, Nat.sqrt_eq]
  have hsd : Nat.sqrt ((p * p).den) = p.den := by
    rw [Rat.mul_self_den, Nat.sqrt_eq]
  rw [ratSqrt, if_neg (not_lt.mpr (mul_self_nonneg p)),
    if_pos ⟨by rw [hsn, hnumAbs], by rw [hsd, Rat.mul_self_den]⟩, hsn, hsd]
  have hcast : ((p.num.natAbs : ℚ)) = ((p.num : ℤ) : ℚ) := by
    rw [Int.cast_natAbs]
    rw [abs_of_nonneg h0]
  rw [hcast, Rat.num_div_den]

/-- Translating every first component shifts the sum by length times the
offset. -/
theorem sum_map_fst_add (l : List (ℚ × ℚ)) (d : ℚ) :
    (l.map fun q => q.1 + d).sum = (l.map (·.1)).sum + l.length * d := by
  induction l with
  | nil => simp
  | cons a t ih =>
    simp only [List.map_cons, List.sum_cons, ih, List.length_cons]
    push_cast
    ring

/-- Translating every second component shifts the sum by length times the
offset. -/
theorem sum_map_snd_add (l : List (ℚ × ℚ)) (d : ℚ) :
    (l.map fun q => q.2 + d).sum = (l.map (·.2)).sum + l.length * d := by
  induction l with
  | nil => simp
  | cons a t ih =>
    simp only [List.map_cons, List.sum_cons, ih, List.length_cons]
    push_cast
    ring

/-- Drift cancellation restores the requested centroid exactly. -/
theorem centroid_driftCancel (uvs : List (ℚ × ℚ)) (c0 : ℚ × ℚ)
    (h : uvs.length ≠ 0) :
    PhysicsFlattener.centroid (PhysicsFlattener.driftCancel uvs c0) = c0 := by
  have hn : (uvs.length : ℚ) ≠ 0 := Nat.cast_ne_zero.mpr h
  simp only [PhysicsFlattener.driftCancel, PhysicsFlattener.centroid, List.map_map,
    Function.comp_def, List.length_map]
  rw [sum_map_fst_add, sum_map_snd_add]
  refine Prod.ext ?_ ?_ <;> simp only <;> field_simp

/-- The physics step outputs one UV per input UV. -/
theorem physicsStep_fst_length (uvs vels : List (ℚ × ℚ))
    (constraints : List PhysicsFlattener.Constraint) (bv : List ℕ) (pin : Bool)
    (damping : ℚ) :
    (PhysicsFlattener.physicsStep uvs vels constraints bv pin damping).1.length =
      uvs.length := by
  simp [PhysicsFlattener.physicsStep]

/-- The relaxation loop keeps one UV per vertex. -/
theorem relaxRun_uvs_length (subMesh : SubMesh) (initialUV : List (ℚ × ℚ))
    (opts : PhysicsFlattener.RelaxOptions) :
    ∀ k, (PhysicsFlattener.relaxRun subMesh initialUV opts k).uvs.length =
      subMesh.vertices.length := by
  intro k
  induction k with
  | zero => simp [PhysicsFlattener.relaxRun, PhysicsFlattener.relaxInit]
  | succ j ih =>
    show (PhysicsFlattener.relaxIter _ _ _ _ j
      (PhysicsFlattener.relaxRun subMesh initialUV opts j)).uvs.length = _
    simp only [PhysicsFlattener.relaxIter]
    by_cases hp : opts.pinBoundary = false
    · simp only [hp, if_pos]
      simp [PhysicsFlattener.driftCancel, physicsStep_fst_length, ih]
    · simp only [if_neg hp]
      simp [physicsStep_fst_length, ih]

/-- C5 counterexample: a two-iteration pinned run (pinBoundary = true) on the
collinear triangle fan moves the UV centroid of the patch by far more than
1e-9 between the first and the second iteration: drift cancellation is
skipped whenever the boundary is pinned. -/
theorem c5_pinned_centroid_drifts :
    ¬ |(PhysicsFlattener.centroid (PhysicsFlattener.relaxRun PhysicsFlattener.fanMesh
        PhysicsFlattener.fanUV PhysicsFlattener.fanOpts 2).uvs).1 -
      (PhysicsFlattener.centroid (PhysicsFlattener.relaxRun PhysicsFlattener.fanMesh
        PhysicsFlattener.fanUV PhysicsFlattener.fanOpts 1).uvs).1| ≤ 1 / 10 ^ 9 := by
  have hs1 : ratSqrt 1 = 1 := by
    have h := ratSqrt_sq 1 (by norm_num)
    norm_num at h
    exact h
  have hs4 : ratSqrt 4 = 2 := by
    have h := ratSqrt_sq 2 (by norm_num)
    norm_num at h
    exact h
  have hs9 : ratSqrt 9 = 3 := by
    have h := ratSqrt_sq 3 (by norm_num)
    norm_num at h
    exact h
  have hq4 : ratSqrt (1 / 4) = 1 / 2 := by
    have h := ratSqrt_sq (1 / 2) (by norm_num)
    norm_num at h
    exact h
  have hq94 : ratSqrt (9 / 4) = 3 / 2 := by
    have h := ratSqrt_sq (3 / 2) (by norm_num)
    norm_num at h
    exact h
  have ha : ratSqrt (6105390769 / 24414062500) = 78137 / 156250 := by
    have h := ratSqrt_sq (78137 / 156250) (by norm_num)
    norm_num at h
    exact h
  have hb : ratSqrt (6101640769 / 24414062500) = 78113 / 156250 := by
    have h := ratSqrt_sq (78113 / 156250) (by norm_num)
    norm_num at h
    exact h
  have hc : ratSqrt (54926015769 / 24414062500) = 234363 / 156250 := by
    have h := ratSqrt_sq (234363 / 156250) (by norm_num)
    norm_num at h
    exact h
  have hbv : PhysicsFlattener.identifyBoundary PhysicsFlattener.fanMesh.faces =
      ([0, 1, 2], [(0, 1), (1, 2), (0, 2)]) := by decide
  have hcons : PhysicsFlattener.buildDifferentiatedConstraints
      PhysicsFlattener.fanMesh.vertices PhysicsFlattener.fanMesh.faces
      [(0, 1), (1, 2), (0, 2)] 50 (1/5) =
      [⟨0, 1, 1, 50, true⟩, ⟨1, 3, 2, 1/5, false⟩, ⟨3, 0, 3, 1/5, false⟩,
        ⟨1, 2, 1, 50, true⟩, ⟨2, 3, 1, 1/5, false⟩, ⟨2, 0, 2, 50, true⟩] := by
    norm_num [PhysicsFlattener.buildDifferentiatedConstraints, faceEdges, edgeKey,
      dist2, PhysicsFlattener.fanMesh, hs1, hs4, hs9, List.range_succ]
  have h1 : PhysicsFlattener.relaxRun PhysicsFlattener.fanMesh PhysicsFlattener.fanUV
      PhysicsFlattener.fanOpts 1 =
      ⟨[(0, 0), (1, 0), (2, 0), (78137/156250, 0)],
        [(0, 0), (0, 0), (0, 0), (3/625, 0)], 1⟩ := by
    show PhysicsFlattener.relaxIter _ _ _ _ 0
      (PhysicsFlattener.relaxInit PhysicsFlattener.fanMesh PhysicsFlattener.fanUV) = _
    rw [hbv]
    simp only [PhysicsFlattener.fanOpts]
    rw [hcons]
    norm_num [PhysicsFlattener.relaxIter, PhysicsFlattener.relaxInit,
      PhysicsFlattener.physicsStep, PhysicsFlattener.centroid,
      PhysicsFlattener.driftCancel, PhysicsFlattener.fanMesh, PhysicsFlattener.fanUV,
      hs1, hs4, hq4, hq94, List.range_succ]
  have h2 : PhysicsFlattener.relaxRun PhysicsFlattener.fanMesh PhysicsFlattener.fanUV
      PhysicsFlattener.fanOpts 2 =
      ⟨[(0, 0), (1, 0), (2, 0), (6106327981/12207031250, 0)],
        [(0, 0), (0, 0), (0, 0), (468714/48828125, 0)], 1⟩ := by
    show PhysicsFlattener.relaxIter _ _ _ _ 1
      (PhysicsFlattener.relaxRun PhysicsFlattener.fanMesh PhysicsFlattener.fanUV
        PhysicsFlattener.fanOpts 1) = _
    rw [hbv, h1]
    simp only [PhysicsFlattener.fanOpts]
    rw [hcons]
    norm_num [PhysicsFlattener.relaxIter, PhysicsFlattener.relaxInit,
      PhysicsFlattener.physicsStep, PhysicsFlattener.centroid,
      PhysicsFlattener.driftCancel, PhysicsFlattener.fanMesh, PhysicsFlattener.fanUV,
      hs1, hs4, ha, hb, hc, List.range_succ]
  rw [h1, h2]
  norm_num [PhysicsFlattener.centroid]
  rw [abs_of_nonneg (by norm_num : (0 : ℚ) ≤ 234357 / 6103515625)]
  norm_num

/-- C5 amended: drift cancellation runs exactly when the boundary is not
pinned (the default); in that case every iteration of the relaxation loop
restores the UV centroid of the patch exactly, so the centroid after any
iteration equals the pre-iteration centroid (difference 0, well within
1e-9). -/
theorem c5_centroid_preserved_when_unpinned (subMesh : SubMesh)
    (initialUV : List (ℚ × ℚ)) (opts : PhysicsFlattener.RelaxOptions)
    (hpin : opts.pinBoundary = false) (hn : 0 < subMesh.vertices.length) (k : ℕ) :
    PhysicsFlattener.centroid
        ((PhysicsFlattener.relaxRun subMesh initialUV opts (k + 1)).uvs) =
      PhysicsFlattener.centroid
        ((PhysicsFlattener.relaxRun subMesh initialUV opts k).uvs) := by
  have key : ∀ j, PhysicsFlattener.centroid
      ((PhysicsFlattener.relaxRun subMesh initialUV opts (j + 1)).uvs) =
      PhysicsFlattener.centroid
        ((PhysicsFlattener.relaxInit subMesh initialUV).uvs) := by
    intro j
    show PhysicsFlattener.centroid ((PhysicsFlattener.relaxIter _ _ _ _ j
      (PhysicsFlattener.relaxRun subMesh initialUV opts j)).uvs) = _
    simp only [PhysicsFlattener.relaxIter, hpin, if_pos]
    apply centroid_driftCancel
    rw [physicsStep_fst_length, relaxRun_uvs_length]
    omega
  cases k with
  | zero =>
    rw [key 0]
    rfl
  | succ j => rw [key (j + 1), key j]

/-- C5 witness: on the triangle fan with pinBoundary = false, the centroid
after iteration 2 equals the centroid after iteration 1. -/
theorem c5_centroid_preserved_when_unpinned_witness :
    (⟨2, 50, 1/5, false, 0.995⟩ : PhysicsFlattener.RelaxOptions).pinBoundary = false ∧
      0 < PhysicsFlattener.fanMesh.vertices.length ∧
      PhysicsFlattener.centroid ((PhysicsFlattener.relaxRun PhysicsFlattener.fanMesh
          PhysicsFlattener.fanUV ⟨2, 50, 1/5, false, 0.995⟩ 2).uvs) =
        PhysicsFlattener.centroid ((PhysicsFlattener.relaxRun PhysicsFlattener.fanMesh
          PhysicsFlattener.fanUV ⟨2, 50, 1/5, false, 0.995⟩ 1).uvs) :=
  ⟨rfl, by decide,
    c5_centroid_preserved_when_unpinned PhysicsFlattener.fanMesh PhysicsFlattener.fanUV
      ⟨2, 50, 1/5, false, 0.995⟩ rfl (by decide) 1⟩

/-- C10 witness: a vertex of the concrete emitted patch smW is white. -/
theorem c10_emitted_vertices_white_witness :
    FloodSegmenter.smW ∈
        FloodSegmenter.segmentWithSeams FloodSegmenter.meshW [] 1 true [3] ∧
      (⟨0, 0, 0, 1, 1, 1⟩ : Vertex).r = 1 ∧ (⟨0, 0, 0, 1, 1, 1⟩ : Vertex).g = 1 ∧
        (⟨0, 0, 0, 1, 1, 1⟩ : Vertex).b = 1 := by
  have hm : FloodSegmenter.smW ∈
      FloodSegmenter.segmentWithSeams FloodSegmenter.meshW [] 1 true [3] := by decide
  exact ⟨hm,
    c10_emitted_vertices_white FloodSegmenter.meshW [] 1 true [3]
      FloodSegmenter.smW hm ⟨0, 0, 0, 1, 1, 1⟩ (by decide)⟩


/-! ## Vertex welding: C6 (welding idempotence) -/

namespace MeshScissor

/-- Squared distance is symmetric. -/
theorem dist2_comm (a b : Vertex) : dist2 a b = dist2 b a := by
  unfold dist2; ring

/-- Unfolding equation for weldStep, stated by hand (definitional). -/
theorem weldStep_def (tolerance : ℚ) (st : WeldState) (v : Vertex) :
    weldStep tolerance st v =
      match findMergeTarget (tolerance * tolerance) st
          (checkKeys (tolerance * 10) v) v with
      | some eIdx => { st with vertexMap := st.vertexMap ++ [eIdx] }
      | none =>
          { vertexMap := st.vertexMap ++ [st.newVertices.length],
            newVertices := st.newVertices ++ [v],
            spatialHash :=
              alPush st.spatialHash (getHashKey (tolerance * 10) v)
                st.newVertices.length } := rfl

/-- A short-circuiting option fold keeps a some accumulator. -/
theorem foldl_option_stay {α β : Type} (f : Option β → α → Option β)
    (hf : ∀ b a, f (some b) a = some b) (l : List α) (b : β) :
    l.foldl f (some b) = some b := by
  induction l with
  | nil => rfl
  | cons a l ih => rw [List.foldl_cons, hf]; exact ih

/-- If a short-circuiting option fold from none returns none, every element
maps to none. -/
theorem foldl_option_none {α β : Type} (f : Option β → α → Option β)
    (hf : ∀ b a, f (some b) a = some b) (l : List α)
    (h : l.foldl f none = none) : ∀ a ∈ l, f none a = none := by
  induction l with
  | nil => intro a ha; cases ha
  | cons a l ih =>
      intro x hx
      rw [List.foldl_cons] at h
      cases hfa : f none a with
      | some b => rw [hfa, foldl_option_stay f hf] at h; cases h
      | none =>
          rw [hfa] at h
          rcases List.mem_cons.mp hx with rfl | hx'
          · exact hfa
          · exact ih h x hx'

/-- If a short-circuiting option fold from none returns some, some element
maps to it. -/
theorem foldl_option_some {α β : Type} (f : Option β → α → Option β)
    (hf : ∀ b a, f (some b) a = some b) (l : List α) (b : β)
    (h : l.foldl f none = some b) : ∃ a ∈ l, f none a = some b := by
  induction l with
  | nil => cases h
  | cons a l ih =>
      rw [List.foldl_cons] at h
      cases hfa : f none a with
      | some b' =>
          rw [hfa, foldl_option_stay f hf] at h
          injection h with h'
          subst h'
          exact ⟨a, List.mem_cons_self a l, hfa⟩
      | none =>
          rw [hfa] at h
          obtain ⟨x, hx, hfx⟩ := ih h
          exact ⟨x, List.mem_cons_of_mem a hx, hfx⟩

/-- A failed bucket scan means no bucket member is within tolerance. -/
theorem scanBucket_none (tol2 : ℚ) (nv : List Vertex) (v : Vertex)
    (idxs : List ℕ) (h : scanBucket tol2 nv v idxs = none) :
    ∀ j ∈ idxs, ¬ dist2 v (nv.getD j ⟨0, 0, 0, 0, 0, 0⟩) ≤ tol2 := by
  intro j hj hle
  rw [scanBucket] at h
  have h2 := foldl_option_none _ (fun b a => rfl) idxs h j hj
  have h3 : (if dist2 v (nv.getD j ⟨0, 0, 0, 0, 0, 0⟩) ≤ tol2 then some j
      else none) = (none : Option ℕ) := h2
  rw [if_pos hle] at h3
  cases h3

/-- A successful bucket scan returns a bucket member within tolerance. -/
theorem scanBucket_some (tol2 : ℚ) (nv : List Vertex) (v : Vertex)
    (idxs : List ℕ) (e : ℕ) (h : scanBucket tol2 nv v idxs = some e) :
    e ∈ idxs ∧ dist2 v (nv.getD e ⟨0, 0, 0, 0, 0, 0⟩) ≤ tol2 := by
  rw [scanBucket] at h
  obtain ⟨a, ha, hfa⟩ := foldl_option_some _ (fun b a => rfl) idxs e h
  have h2 : (if dist2 v (nv.getD a ⟨0, 0, 0, 0, 0, 0⟩) ≤ tol2 then some a
      else none) = some e := hfa
  by_cases hc : dist2 v (nv.getD a ⟨0, 0, 0, 0, 0, 0⟩) ≤ tol2
  · rw [if_pos hc] at h2
    injection h2 with h3
    subst h3
    exact ⟨ha, hc⟩
  · rw [if_neg hc] at h2
    cases h2

/-- A failed merge search means every inhabited candidate cell scans to
none. -/
theorem findMergeTarget_none (tol2 : ℚ) (st : WeldState)
    (keys : List (ℤ × ℤ × ℤ)) (v : Vertex)
    (h : findMergeTarget tol2 st keys v = none) :
    ∀ key ∈ keys, ∀ idxs, alGet st.spatialHash key = some idxs →
      scanBucket tol2 st.newVertices v idxs = none := by
  intro key hk idxs hget
  rw [findMergeTarget] at h
  have h2 := foldl_option_none _ (fun b a => rfl) keys h key hk
  have h3 : (match alGet st.spatialHash key with
      | none => (none : Option ℕ)
      | some idxs => scanBucket tol2 st.newVertices v idxs) = none := h2
  rw [hget] at h3
  exact h3

/-- A successful merge search returns the verdict of some candidate cell. -/
theorem findMergeTarget_some (tol2 : ℚ) (st : WeldState)
    (keys : List (ℤ × ℤ × ℤ)) (v : Vertex) (e : ℕ)
    (h : findMergeTarget tol2 st keys v = some e) :
    ∃ key ∈ keys, ∃ idxs, alGet st.spatialHash key = some idxs ∧
      scanBucket tol2 st.newVertices v idxs = some e := by
  rw [findMergeTarget] at h
  obtain ⟨key, hk, hfk⟩ := foldl_option_some _ (fun b a => rfl) keys e h
  have h2 : (match alGet st.spatialHash key with
      | none => (none : Option ℕ)
      | some idxs => scanBucket tol2 st.newVertices v idxs) = some e := hfk
  cases hget : alGet st.spatialHash key with
  | none => rw [hget] at h2; cases h2
  | some idxs => rw [hget] at h2; exact ⟨key, hk, idxs, hget, h2⟩

/-- alGet on a cons. -/
theorem alGet_cons {κ ν : Type} [DecidableEq κ] (k0 : κ) (v0 : ν)
    (rest : List (κ × ν)) (k : κ) :
    alGet ((k0, v0) :: rest) k = if k0 = k then some v0 else alGet rest k := by
  by_cases h : k0 = k <;> simp [alGet, List.find?_cons, h]

/-- A binding returned by alGet is a member of the association list. -/
theorem alGet_mem {κ ν : Type} [DecidableEq κ] (m : List (κ × ν)) (k : κ)
    (v : ν) (h : alGet m k = some v) : (k, v) ∈ m := by
  induction m with
  | nil => cases h
  | cons p rest ih =>
      obtain ⟨k0, v0⟩ := p
      rw [alGet_cons] at h
      by_cases hk : k0 = k
      · rw [if_pos hk] at h
        injection h with h'
        subst h'
        subst hk
        exact List.mem_cons_self _ _
      · rw [if_neg hk] at h
        exact List.mem_cons_of_mem _ (ih h)

/-- alGet after alSet at the written key. -/
theorem alGet_alSet_self {κ ν : Type} [DecidableEq κ] (m : List (κ × ν))
    (k : κ) (v : ν) : alGet (alSet m k v) k = some v := by
  induction m with
  | nil => simp [alSet, alGet_cons]
  | cons p rest ih =>
      obtain ⟨k0, v0⟩ := p
      rw [alSet]
      by_cases hk : k0 = k
      · rw [if_pos hk, alGet_cons, if_pos hk]
      · rw [if_neg hk, alGet_cons, if_neg hk]
        exact ih

/-- alGet after alSet at another key. -/
theorem alGet_alSet_ne {κ ν : Type} [DecidableEq κ] (m : List (κ × ν))
    (k k' : κ) (v : ν) (h : k ≠ k') :
    alGet (alSet m k v) k' = alGet m k' := by
  induction m with
  | nil => simp [alSet, alGet_cons, h, alGet]
  | cons p rest ih =>
      obtain ⟨k0, v0⟩ := p
      rw [alSet]
      by_cases hk : k0 = k
      · rw [if_pos hk, alGet_cons, alGet_cons]
        have hk' : k0 ≠ k' := by rw [hk]; exact h
        rw [if_neg hk', if_neg hk']
      · rw [if_neg hk, alGet_cons, alGet_cons]
        by_cases hk' : k0 = k'
        · rw [if_pos hk', if_pos hk']
        · rw [if_neg hk', if_neg hk']
          exact ih

/-- alGet over an appended fresh binding, at its key. -/
theorem alGet_append_single_self {κ ν : Type} [DecidableEq κ]
    (m : List (κ × ν)) (k : κ) (v : ν) (h : alGet m k = none) :
    alGet (m ++ [(k, v)]) k = some v := by
  induction m with
  | nil => simp [alGet_cons]
  | cons p rest ih =>
      obtain ⟨k0, v0⟩ := p
      rw [List.cons_append, alGet_cons]
      rw [alGet_cons] at h
      by_cases hk : k0 = k
      · rw [if_pos hk] at h; cases h
      · rw [if_neg hk] at h
        rw [if_neg hk]
        exact ih h

/-- alGet over an appended binding with a different key. -/
theorem alGet_append_single_ne {κ ν : Type} [DecidableEq κ]
    (m : List (κ × ν)) (k k' : κ) (v : ν) (h : k ≠ k') :
    alGet (m ++ [(k, v)]) k' = alGet m k' := by
  induction m with
  | nil => simp [alGet_cons, h, alGet]
  | cons p rest ih =>
      obtain ⟨k0, v0⟩ := p
      rw [List.cons_append, alGet_cons, alGet_cons]
      by_cases hk : k0 = k'
      · rw [if_pos hk, if_pos hk]
      · rw [if_neg hk, if_neg hk]
        exact ih

/-- alGet after alPush at the pushed key: the old bucket with the new index
appended. -/
theorem alGet_alPush_self {κ : Type} [DecidableEq κ]
    (m : List (κ × List ℕ)) (k : κ) (x : ℕ) :
    alGet (alPush m k x) k = some (((alGet m k).getD []) ++ [x]) := by
  cases h : alGet m k with
  | some l =>
      have he : alPush m k x = alSet m k (l ++ [x]) := by rw [alPush, h]
      rw [he, alGet_alSet_self]
      rfl
  | none =>
      have he : alPush m k x = m ++ [(k, [x])] := by rw [alPush, h]
      rw [he, alGet_append_single_self m k [x] h]
      rfl

/-- alGet after alPush at another key. -/
theorem alGet_alPush_ne {κ : Type} [DecidableEq κ]
    (m : List (κ × List ℕ)) (k k' : κ) (x : ℕ) (h : k ≠ k') :
    alGet (alPush m k x) k' = alGet m k' := by
  cases hg : alGet m k with
  | some l =>
      have he : alPush m k x = alSet m k (l ++ [x]) := by rw [alPush, hg]
      rw [he, alGet_alSet_ne m k k' _ h]
  | none =>
      have he : alPush m k x = m ++ [(k, [x])] := by rw [alPush, hg]
      rw [he, alGet_append_single_ne m k k' _ h]

/-- Membership in alSet comes from the original list or is the written
binding. -/
theorem alSet_mem {κ ν : Type} [DecidableEq κ] {m : List (κ × ν)} {k : κ}
    {v : ν} {p : κ × ν} (h : p ∈ alSet m k v) : p ∈ m ∨ p = (k, v) := by
  induction m with
  | nil =>
      rw [alSet] at h
      rcases List.mem_singleton.mp h with rfl
      right; rfl
  | cons q rest ih =>
      obtain ⟨k0, v0⟩ := q
      rw [alSet] at h
      by_cases hk : k0 = k
      · rw [if_pos hk] at h
        rcases List.mem_cons.mp h with rfl | h'
        · right; rw [hk]
        · left; exact List.mem_cons_of_mem _ h'
      · rw [if_neg hk] at h
        rcases List.mem_cons.mp h with rfl | h'
        · left; exact List.mem_cons_self _ _
        · rcases ih h' with h'' | h''
          · left; exact List.mem_cons_of_mem _ h''
          · right; exact h''

/-- Membership in alPush: an old binding, the grown bucket, or the fresh
singleton bucket. -/
theorem alPush_mem {κ : Type} [DecidableEq κ] {m : List (κ × List ℕ)}
    {k : κ} {x : ℕ} {p : κ × List ℕ} (h : p ∈ alPush m k x) :
    p ∈ m ∨ (∃ l0, alGet m k = some l0 ∧ p = (k, l0 ++ [x])) ∨
      p = (k, [x]) := by
  cases hg : alGet m k with
  | some l =>
      have he : alPush m k x = alSet m k (l ++ [x]) := by rw [alPush, hg]
      rw [he] at h
      rcases alSet_mem h with h' | h'
      · exact Or.inl h'
      · exact Or.inr (Or.inl ⟨l, rfl, h'⟩)
  | none =>
      have he : alPush m k x = m ++ [(k, [x])] := by rw [alPush, hg]
      rw [he] at h
      rcases List.mem_append.mp h with h' | h'
      · exact Or.inl h'
      · exact Or.inr (Or.inr (List.mem_singleton.mp h'))

/-- getD on the left part of an append. -/
theorem getD_append_left {α : Type} (l l' : List α) (d : α) (n : ℕ)
    (h : n < l.length) : (l ++ l').getD n d = l.getD n d := by
  rw [List.getD_eq_getElem?_getD, List.getD_eq_getElem?_getD,
    List.getElem?_append_left h]

/-- getD of an appended element at the original length. -/
theorem getD_concat_self {α : Type} (l : List α) (a d : α) :
    (l ++ [a]).getD l.length d = a := by
  rw [List.getD_eq_getElem?_getD, List.getElem?_concat_length]
  rfl

/-- From a squared bound to an absolute-value bound. -/
theorem abs_le_of_sq_le (d t : ℚ) (ht : 0 ≤ t) (h : d * d ≤ t * t) :
    |d| ≤ t := by
  rcases abs_cases d with ⟨h1, h2⟩ | ⟨h1, h2⟩ <;> rw [h1] <;>
    nlinarith [sq_nonneg (d - t), sq_nonneg (d + t)]

/-- Floors of rationals at distance at most 1 differ by at most 1. -/
theorem floor_dist_le_one (x y : ℚ) (h : |x - y| ≤ 1) :
    -1 ≤ ⌊x⌋ - ⌊y⌋ ∧ ⌊x⌋ - ⌊y⌋ ≤ 1 := by
  rw [abs_le] at h
  have h1 : x ≤ y + 1 := by linarith [h.2]
  have h2 : y - 1 ≤ x := by linarith [h.1]
  have hu : ⌊x⌋ ≤ ⌊y⌋ + 1 := by
    have h3 := Int.floor_le_floor h1
    rw [Int.floor_add_one] at h3
    exact h3
  have hl : ⌊y⌋ - 1 ≤ ⌊x⌋ := by
    have h3 := Int.floor_le_floor h2
    have h4 : ⌊y - ((1 : ℤ) : ℚ)⌋ = ⌊y⌋ - 1 := Int.floor_sub_int y 1
    rw [show y - 1 = y - ((1 : ℤ) : ℚ) by norm_num, h4] at h3
    exact h3
  omega

/-- Per-coordinate bounds from the squared-distance bound. -/
theorem coord_bounds (tol : ℚ) (ht : 0 < tol) (v w : Vertex)
    (h : dist2 v w ≤ tol * tol) :
    |w.x - v.x| ≤ tol ∧ |w.y - v.y| ≤ tol ∧ |w.z - v.z| ≤ tol := by
  unfold dist2 at h
  have hx : (w.x - v.x) * (w.x - v.x) ≤ tol * tol := by
    nlinarith [sq_nonneg (w.y - v.y), sq_nonneg (w.z - v.z)]
  have hy : (w.y - v.y) * (w.y - v.y) ≤ tol * tol := by
    nlinarith [sq_nonneg (w.x - v.x), sq_nonneg (w.z - v.z)]
  have hz : (w.z - v.z) * (w.z - v.z) ≤ tol * tol := by
    nlinarith [sq_nonneg (w.x - v.x), sq_nonneg (w.y - v.y)]
  exact ⟨abs_le_of_sq_le _ _ ht.le hx, abs_le_of_sq_le _ _ ht.le hy,
    abs_le_of_sq_le _ _ ht.le hz⟩

/-- 27-cell coverage: a vertex within tolerance of v lives in one of the
cells the welder checks around v. -/
theorem mem_checkKeys (tol : ℚ) (ht : 0 < tol) (v w : Vertex)
    (h : dist2 v w ≤ tol * tol) :
    getHashKey (tol * 10) w ∈ checkKeys (tol * 10) v := by
  obtain ⟨hx, hy, hz⟩ := coord_bounds tol ht v w h
  have hc : (0 : ℚ) < tol * 10 := by linarith
  have hdiv : ∀ a b : ℚ, |a - b| ≤ tol →
      -1 ≤ ⌊a / (tol * 10)⌋ - ⌊b / (tol * 10)⌋ ∧
        ⌊a / (tol * 10)⌋ - ⌊b / (tol * 10)⌋ ≤ 1 := by
    intro a b hab
    refine floor_dist_le_one _ _ ?_
    rw [div_sub_div_same, abs_div, abs_of_pos hc, div_le_one hc]
    linarith [hab]
  have hfx := hdiv w.x v.x hx
  have hfy := hdiv w.y v.y hy
  have hfz := hdiv w.z v.z hz
  simp only [checkKeys, List.mem_flatMap, List.mem_map, getHashKey]
  refine ⟨⌊w.x / (tol * 10)⌋ - ⌊v.x / (tol * 10)⌋, ?_,
    ⌊w.y / (tol * 10)⌋ - ⌊v.y / (tol * 10)⌋, ?_,
    ⌊w.z / (tol * 10)⌋ - ⌊v.z / (tol * 10)⌋, ?_, ?_⟩
  · simp only [List.mem_cons, List.not_mem_nil, or_false]
    omega
  · simp only [List.mem_cons, List.not_mem_nil, or_false]
    omega
  · simp only [List.mem_cons, List.not_mem_nil, or_false]
    omega
  · simp only [Prod.mk.injEq]
    refine ⟨?_, ?_, ?_⟩ <;> omega

/-- One welding step preserves the invariant. -/
theorem weldStep_inv (tol : ℚ) (ht : 0 < tol) (st : WeldState) (v : Vertex)
    (h : WeldInv tol st) : WeldInv tol (weldStep tol st v) := by
  obtain ⟨hsep, hsound, hcompl, hmap⟩ := h
  rw [weldStep_def]
  cases hf : findMergeTarget (tol * tol) st (checkKeys (tol * 10) v) v with
  | some eIdx =>
      refine ⟨hsep, hsound, hcompl, ?_⟩
      intro i hi
      rcases List.mem_append.mp hi with hi' | hi'
      · exact hmap i hi'
      · rcases List.mem_singleton.mp hi' with rfl
        obtain ⟨key, hk, idxs, hget, hscan⟩ :=
          findMergeTarget_some _ _ _ _ _ hf
        obtain ⟨he, _⟩ := scanBucket_some _ _ _ _ _ hscan
        exact (hsound key idxs (alGet_mem _ _ _ hget) _ he).1
  | none =>
      have hsep' : (st.newVertices ++ [v]).Pairwise
          (fun a b => tol * tol < dist2 a b) := by
        rw [List.pairwise_append]
        refine ⟨hsep, List.pairwise_singleton _ _, ?_⟩
        intro a ha b hb
        have hb' : b = v := List.mem_singleton.mp hb
        subst b
        by_contra hle
        push_neg at hle
        obtain ⟨j, hj, rfl⟩ := List.mem_iff_getElem.mp ha
        have hdj : st.newVertices.getD j ⟨0, 0, 0, 0, 0, 0⟩ =
            st.newVertices[j] := List.getD_eq_getElem _ _ hj
        obtain ⟨l, hget, hjl⟩ := hcompl j hj
        have hdist : dist2 v (st.newVertices[j]) ≤ tol * tol := by
          rw [dist2_comm]; exact hle
        have hkey : getHashKey (tol * 10) (st.newVertices[j]) ∈
            checkKeys (tol * 10) v := mem_checkKeys tol ht v _ hdist
        rw [hdj] at hget
        have hnone := findMergeTarget_none _ _ _ _ hf _ hkey l hget
        have hne := scanBucket_none _ _ _ _ hnone j hjl
        rw [hdj] at hne
        exact hne hdist
      have hlen : (st.newVertices ++ [v]).length =
          st.newVertices.length + 1 := by simp
      have hsound' : ∀ key l,
          (key, l) ∈ alPush st.spatialHash (getHashKey (tol * 10) v)
            st.newVertices.length →
          ∀ j ∈ l, j < (st.newVertices ++ [v]).length ∧
            getHashKey (tol * 10)
              ((st.newVertices ++ [v]).getD j ⟨0, 0, 0, 0, 0, 0⟩) = key := by
        intro key l hmem j hj
        have hold : ∀ l', (key, l') ∈ st.spatialHash → j ∈ l' →
            j < (st.newVertices ++ [v]).length ∧
            getHashKey (tol * 10)
              ((st.newVertices ++ [v]).getD j ⟨0, 0, 0, 0, 0, 0⟩) = key := by
          intro l' hm hj'
          have h1 := hsound key l' hm j hj'
          refine ⟨by omega, ?_⟩
          rw [getD_append_left _ _ _ _ h1.1]
          exact h1.2
        rcases alPush_mem hmem with hm | ⟨l0, hget0, heq⟩ | heq
        · exact hold l hm hj
        · have hkeq : key = getHashKey (tol * 10) v := congrArg Prod.fst heq
          have hleq : l = l0 ++ [st.newVertices.length] :=
            congrArg Prod.snd heq
          subst hkeq
          rw [hleq] at hj
          rcases List.mem_append.mp hj with hj0 | hj1
          · exact hold l0 (alGet_mem _ _ _ hget0) hj0
          · rcases List.mem_singleton.mp hj1 with rfl
            refine ⟨by omega, ?_⟩
            rw [getD_concat_self]
        · have hkeq : key = getHashKey (tol * 10) v := congrArg Prod.fst heq
          have hleq : l = [st.newVertices.length] := congrArg Prod.snd heq
          subst hkeq
          rw [hleq] at hj
          rcases List.mem_singleton.mp hj with rfl
          refine ⟨by omega, ?_⟩
          rw [getD_concat_self]
      have hcompl' : ∀ j, j < (st.newVertices ++ [v]).length →
          ∃ l, alGet (alPush st.spatialHash (getHashKey (tol * 10) v)
              st.newVertices.length)
            (getHashKey (tol * 10)
              ((st.newVertices ++ [v]).getD j ⟨0, 0, 0, 0, 0, 0⟩)) =
            some l ∧ j ∈ l := by
        intro j hj
        rw [hlen] at hj
        rcases Nat.lt_succ_iff_lt_or_eq.mp hj with hjn | rfl
        · rw [getD_append_left _ _ _ _ hjn]
          obtain ⟨l, hget, hjl⟩ := hcompl j hjn
          by_cases hkey : getHashKey (tol * 10)
              (st.newVertices.getD j ⟨0, 0, 0, 0, 0, 0⟩) =
              getHashKey (tol * 10) v
          · rw [hkey] at hget ⊢
            rw [alGet_alPush_self]
            refine ⟨_, rfl, ?_⟩
            rw [hget]
            exact List.mem_append_left _ hjl
          · rw [alGet_alPush_ne _ _ _ _ (Ne.symm hkey)]
            exact ⟨l, hget, hjl⟩
        · rw [getD_concat_self]
          rw [alGet_alPush_self]
          refine ⟨_, rfl, ?_⟩
          exact List.mem_append_right _ (List.mem_singleton_self _)
      have hmap' : ∀ i ∈ st.vertexMap ++ [st.newVertices.length],
          i < (st.newVertices ++ [v]).length := by
        intro i hi
        rcases List.mem_append.mp hi with hi' | hi'
        · have := hmap i hi'
          omega
        · rcases List.mem_singleton.mp hi' with rfl
          omega
      exact ⟨hsep', hsound', hcompl', hmap'⟩

/-- The welding fold preserves the invariant. -/
theorem weldRun_inv (tol : ℚ) (ht : 0 < tol) (vs : List Vertex) :
    ∀ st, WeldInv tol st → WeldInv tol (vs.foldl (weldStep tol) st) := by
  induction vs with
  | nil => intro st h; exact h
  | cons v vs ih => intro st h; exact ih _ (weldStep_inv tol ht st v h)

/-- The empty state satisfies the invariant. -/
theorem weldInv_init (tol : ℚ) : WeldInv tol ⟨[], [], []⟩ := by
  refine ⟨List.Pairwise.nil, ?_, ?_, ?_⟩
  · intro key l hm; cases hm
  · intro j hj; exact absurd hj (Nat.not_lt_zero j)
  · intro i hi; cases hi

/-- Each welding step appends exactly one vertex-map entry. -/
theorem weldStep_map_length (tol : ℚ) (st : WeldState) (v : Vertex) :
    (weldStep tol st v).vertexMap.length = st.vertexMap.length + 1 := by
  rw [weldStep_def]
  cases findMergeTarget (tol * tol) st (checkKeys (tol * 10) v) v <;> simp

/-- The welding fold maps every input vertex. -/
theorem weldRun_map_length (tol : ℚ) (vs : List Vertex) :
    ∀ st, (vs.foldl (weldStep tol) st).vertexMap.length =
      st.vertexMap.length + vs.length := by
  induction vs with
  | nil => intro st; simp
  | cons v vs ih =>
      intro st
      rw [List.foldl_cons, ih, weldStep_map_length, List.length_cons]
      omega

/-- On an already-separated vertex list the welding fold is pure insertion:
it reproduces the list and the identity vertex map. -/
theorem weldRun_pure (tol : ℚ) :
    ∀ (suf pre : List Vertex) (st : WeldState),
    (pre ++ suf).Pairwise (fun a b => tol * tol < dist2 a b) →
    st.newVertices = pre →
    st.vertexMap = List.range pre.length →
    (∀ key l, (key, l) ∈ st.spatialHash → ∀ j ∈ l, j < pre.length) →
    (suf.foldl (weldStep tol) st).newVertices = pre ++ suf ∧
    (suf.foldl (weldStep tol) st).vertexMap =
      List.range (pre ++ suf).length := by
  intro suf
  induction suf with
  | nil =>
      intro pre st hsep hnv hvm hhash
      simp [hnv, hvm]
  | cons v suf ih =>
      intro pre st hsep hnv hvm hhash
      rw [List.foldl_cons]
      have hnone : findMergeTarget (tol * tol) st (checkKeys (tol * 10) v) v =
          none := by
        cases hf : findMergeTarget (tol * tol) st (checkKeys (tol * 10) v) v with
        | none => rfl
        | some e =>
            exfalso
            obtain ⟨key, hk, idxs, hget, hscan⟩ :=
              findMergeTarget_some _ _ _ _ _ hf
            obtain ⟨he, hdist⟩ := scanBucket_some _ _ _ _ _ hscan
            have hbound : e < pre.length :=
              hhash key idxs (alGet_mem _ _ _ hget) e he
            have hde : st.newVertices.getD e ⟨0, 0, 0, 0, 0, 0⟩ = pre[e] := by
              rw [hnv]; exact List.getD_eq_getElem _ _ hbound
            rw [hde] at hdist
            have hmem : pre[e] ∈ pre := List.getElem_mem hbound
            have hR := (List.pairwise_append.mp hsep).2.2 pre[e] hmem v
              (List.mem_cons_self _ _)
            rw [dist2_comm] at hR
            linarith
      have hstep : weldStep tol st v =
          ⟨st.vertexMap ++ [st.newVertices.length], st.newVertices ++ [v],
            alPush st.spatialHash (getHashKey (tol * 10) v)
              st.newVertices.length⟩ := by
        rw [weldStep_def, hnone]
      rw [hstep]
      have happ : pre ++ v :: suf = (pre ++ [v]) ++ suf := by simp
      have hres := ih (pre ++ [v])
        ⟨st.vertexMap ++ [st.newVertices.length], st.newVertices ++ [v],
          alPush st.spatialHash (getHashKey (tol * 10) v)
            st.newVertices.length⟩
        (by rw [← happ]; exact hsep)
        (by rw [hnv])
        (by
          rw [hvm, hnv, List.length_append, List.length_singleton,
            List.range_succ])
        (by
          intro key l hmem j hj
          rw [List.length_append, List.length_singleton]
          rcases alPush_mem hmem with hm | ⟨l0, hget0, heq⟩ | heq
          · have := hhash key l hm j hj
            omega
          · have hleq : l = l0 ++ [st.newVertices.length] :=
              congrArg Prod.snd heq
            rw [hleq] at hj
            rcases List.mem_append.mp hj with hj0 | hj1
            · have := hhash _ l0 (alGet_mem _ _ _ hget0) j hj0
              omega
            · rcases List.mem_singleton.mp hj1 with rfl
              rw [hnv]
              omega
          · have hleq : l = [st.newVertices.length] := congrArg Prod.snd heq
            rw [hleq] at hj
            rcases List.mem_singleton.mp hj with rfl
            rw [hnv]
            omega)
      rw [happ]
      exact hres

/-- The faces emitted by mergeVertices only use valid new-vertex indices. -/
theorem mergeVertices_faces_wf (mesh : Mesh) (tol : ℚ) (ht : 0 < tol)
    (hwf : ∀ face ∈ mesh.faces, ∀ u ∈ face, u < mesh.vertices.length) :
    ∀ face ∈ (mergeVertices mesh tol).faces, ∀ u ∈ face,
      u < (mergeVertices mesh tol).vertices.length := by
  intro face hface u hu
  have hinv := weldRun_inv tol ht mesh.vertices ⟨[], [], []⟩ (weldInv_init tol)
  simp only [mergeVertices, List.mem_filter, List.mem_map] at hface
  obtain ⟨⟨face0, hf0, rfl⟩, _⟩ := hface
  rw [List.mem_map] at hu
  obtain ⟨u0, hu0, rfl⟩ := hu
  have hu0len : u0 < mesh.vertices.length := hwf face0 hf0 u0 hu0
  have hlen : (mesh.vertices.foldl (weldStep tol)
      ⟨[], [], []⟩).vertexMap.length = mesh.vertices.length := by
    have := weldRun_map_length tol mesh.vertices ⟨[], [], []⟩
    simpa using this
  have hmem : (mesh.vertices.foldl (weldStep tol)
      ⟨[], [], []⟩).vertexMap.getD u0 0 ∈
      (mesh.vertices.foldl (weldStep tol) ⟨[], [], []⟩).vertexMap := by
    rw [List.getD_eq_getElem _ _ (by omega)]
    exact List.getElem_mem _
  have := hinv.2.2.2 _ hmem
  simpa [mergeVertices] using this

/-- The vertex list emitted by mergeVertices is pairwise separated beyond
the tolerance. -/
theorem mergeVertices_separated (mesh : Mesh) (tol : ℚ) (ht : 0 < tol) :
    (mergeVertices mesh tol).vertices.Pairwise
      (fun a b => tol * tol < dist2 a b) := by
  have hinv := weldRun_inv tol ht mesh.vertices ⟨[], [], []⟩ (weldInv_init tol)
  simpa [mergeVertices] using hinv.1

/-- On a mesh already separated beyond the tolerance, with faces that are
non-degenerate and in range, the welder is the identity: same vertices,
same faces, identity vertex map, zero merges. -/
theorem mergeVertices_of_separated (m : Mesh) (tol : ℚ)
    (hsep : m.vertices.Pairwise (fun a b => tol * tol < dist2 a b))
    (hf : ∀ face ∈ m.faces, 3 ≤ face.dedup.length ∧
      ∀ u ∈ face, u < m.vertices.length) :
    mergeVertices m tol =
      ⟨m.vertices, m.faces, List.range m.vertices.length, 0⟩ := by
  have hpure := weldRun_pure tol m.vertices [] ⟨[], [], []⟩
    (by simpa using hsep) rfl rfl (by intro key l hm; cases hm)
  simp only [List.nil_append] at hpure
  simp only [mergeVertices]
  rw [WeldResult.mk.injEq]
  refine ⟨hpure.1, ?_, hpure.2, ?_⟩
  · have hmapid : ∀ face ∈ m.faces,
        (face.map fun u => ((m.vertices.foldl (weldStep tol)
          ⟨[], [], []⟩).vertexMap).getD u 0) = face := by
      intro face hface
      have hid : ∀ u ∈ face, ((m.vertices.foldl (weldStep tol)
          ⟨[], [], []⟩).vertexMap).getD u 0 = u := by
        intro u hu
        rw [hpure.2, List.getD_eq_getElem _ _
          (by simpa using (hf face hface).2 u hu)]
        exact List.getElem_range _ _
      exact (List.map_congr_left hid).trans (List.map_id face)
    have hmaps : (m.faces.map fun face =>
        face.map fun u => ((m.vertices.foldl (weldStep tol)
          ⟨[], [], []⟩).vertexMap).getD u 0) = m.faces :=
      (List.map_congr_left hmapid).trans (List.map_id m.faces)
    rw [hmaps]
    refine List.filter_eq_self.mpr ?_
    intro face hface
    exact decide_eq_true (hf face hface).1
  · rw [hpure.1]
    omega

end MeshScissor

/-- C6: welding is idempotent.  For a positive tolerance and a mesh whose
faces index into its vertex list, re-welding the welded mesh with the same
tolerance changes nothing: the same vertex list and the same face list come
back, with the identity vertex map and zero additional merges (so no
additional faces are dropped either). -/
theorem c6_weld_idempotent (mesh : Mesh) (tol : ℚ) (ht : 0 < tol)
    (hwf : ∀ face ∈ mesh.faces, ∀ u ∈ face, u < mesh.vertices.length) :
    MeshScissor.mergeVertices
        ⟨(MeshScissor.mergeVertices mesh tol).vertices,
          (MeshScissor.mergeVertices mesh tol).faces⟩ tol =
      ⟨(MeshScissor.mergeVertices mesh tol).vertices,
        (MeshScissor.mergeVertices mesh tol).faces,
        List.range (MeshScissor.mergeVertices mesh tol).vertices.length,
        0⟩ := by
  refine MeshScissor.mergeVertices_of_separated _ tol ?_ ?_
  · exact MeshScissor.mergeVertices_separated mesh tol ht
  · intro face hface
    have hface' : face ∈ (MeshScissor.mergeVertices mesh tol).faces := hface
    constructor
    · have hfilt : face ∈ List.filter
          (fun face => decide (3 ≤ face.dedup.length))
          (mesh.faces.map fun face =>
            face.map fun u => ((mesh.vertices.foldl
              (MeshScissor.weldStep tol) ⟨[], [], []⟩).vertexMap).getD u 0) :=
        hface'
      have h2 := (List.mem_filter.mp hfilt).2
      exact of_decide_eq_true h2
    · exact fun u hu =>
        MeshScissor.mergeVertices_faces_wf mesh tol ht hwf face hface' u hu

/-- C6 witness: the idempotence theorem applied to c6mesh at tolerance 1. -/
theorem c6_weld_idempotent_witness :
    (0 : ℚ) < 1 ∧
    (∀ face ∈ c6mesh.faces, ∀ u ∈ face, u < c6mesh.vertices.length) ∧
    MeshScissor.mergeVertices
        ⟨(MeshScissor.mergeVertices c6mesh 1).vertices,
          (MeshScissor.mergeVertices c6mesh 1).faces⟩ 1 =
      ⟨(MeshScissor.mergeVertices c6mesh 1).vertices,
        (MeshScissor.mergeVertices c6mesh 1).faces,
        List.range (MeshScissor.mergeVertices c6mesh 1).vertices.length,
        0⟩ :=
  ⟨by norm_num, by decide,
    c6_weld_idempotent c6mesh 1 (by norm_num) (by decide)⟩



/-! ## Flood segmenter: C7 (empty barrier set) -/

namespace FloodSegmenter

/-- floodLoop at fuel 0 returns the state unchanged. -/
theorem floodLoop_zero (adj : List (List (ℕ × (ℕ × ℕ)))) (wall : List (ℕ × ℕ))
    (v q i : List ℕ) : floodLoop adj wall 0 v q i = (v, i) := rfl

/-- Unfolding equation for floodLoop at positive fuel (definitional). -/
theorem floodLoop_succ (adj : List (List (ℕ × (ℕ × ℕ)))) (wall : List (ℕ × ℕ))
    (fuel : ℕ) (v q i : List ℕ) :
    floodLoop adj wall (fuel + 1) v q i =
      match q.getLast? with
      | none => (v, i)
      | some fIdx =>
          floodLoop adj wall fuel
            ((adj.getD fIdx []).foldl (pushStep wall) (v, q.dropLast)).1
            ((adj.getD fIdx []).foldl (pushStep wall) (v, q.dropLast)).2
            (i ++ [fIdx]) := rfl

/-- floodOuterLoop with no starts left. -/
theorem floodOuterLoop_nil (adj : List (List (ℕ × (ℕ × ℕ))))
    (wall : List (ℕ × ℕ)) (fuel : ℕ) (v : List ℕ) (islands : List (List ℕ)) :
    floodOuterLoop adj wall fuel [] v islands = islands := rfl

/-- Unfolding equation for floodOuterLoop on a cons (definitional). -/
theorem floodOuterLoop_cons (adj : List (List (ℕ × (ℕ × ℕ))))
    (wall : List (ℕ × ℕ)) (fuel s : ℕ) (rest : List ℕ) (v : List ℕ)
    (islands : List (List ℕ)) :
    floodOuterLoop adj wall fuel (s :: rest) v islands =
      if v.getD s 0 ≠ 0 then floodOuterLoop adj wall fuel rest v islands
      else
        floodOuterLoop adj wall fuel rest
          (floodLoop adj wall fuel (v.set s 1) [s] []).1
          (if (floodLoop adj wall fuel (v.set s 1) [s] []).2.length > 0 then
            islands ++ [(floodLoop adj wall fuel (v.set s 1) [s] []).2]
          else islands) := rfl

/-- With no wall edges, a push attempt only tests the visited mark. -/
theorem pushStep_nil (v q : List ℕ) (nb : ℕ × (ℕ × ℕ)) :
    pushStep [] (v, q) nb =
      if v.getD nb.1 0 ≠ 0 then (v, q) else (v.set nb.1 1, q ++ [nb.1]) := rfl

/-- getD after an in-range set, at the written index. -/
theorem getD_set_self {α : Type} (l : List α) (j : ℕ) (a d : α)
    (h : j < l.length) : (l.set j a).getD j d = a := by
  induction l generalizing j with
  | nil => cases h
  | cons x l ih =>
      cases j with
      | zero => rfl
      | succ j =>
          rw [List.set_cons_succ, List.getD_cons_succ]
          exact ih j (by simpa using h)

/-- getD after a set, at another index. -/
theorem getD_set_ne {α : Type} (l : List α) (j : ℕ) (a d : α) (i : ℕ)
    (h : i ≠ j) : (l.set j a).getD i d = l.getD i d := by
  induction l generalizing i j with
  | nil => rfl
  | cons x l ih =>
      cases j with
      | zero =>
          cases i with
          | zero => exact absurd rfl h
          | succ i => rfl
      | succ j =>
          cases i with
          | zero => rfl
          | succ i =>
              rw [List.set_cons_succ, List.getD_cons_succ, List.getD_cons_succ]
              exact ih j i (fun hc => h (by rw [hc]))

/-- Setting an in-range zero entry to 1 decrements the zero count. -/
theorem count_set_zero (l : List ℕ) (j : ℕ) (h : j < l.length)
    (h0 : l.getD j 0 = 0) : (l.set j 1).count 0 + 1 = l.count 0 := by
  induction l generalizing j with
  | nil => cases h
  | cons x l ih =>
      cases j with
      | zero =>
          rw [List.getD_cons_zero] at h0
          subst h0
          simp [List.count_cons]
      | succ j =>
          rw [List.getD_cons_succ] at h0
          rw [List.set_cons_succ]
          simp only [List.count_cons]
          have := ih j (by simpa using h) h0
          omega

/-- getD on a replicated list with the replicated value as default. -/
theorem getD_replicate_self {α : Type} (n i : ℕ) (a : α) :
    (List.replicate n a).getD i a = a := by
  rw [List.getD_eq_getElem?_getD, List.getElem?_replicate]
  split <;> rfl

/-- alPush preserves a predicate on all stored values. -/
theorem alPush_values {κ : Type} [DecidableEq κ] (P : ℕ → Prop)
    (m : List (κ × List ℕ)) (k : κ) (x : ℕ)
    (hm : ∀ key l, (key, l) ∈ m → ∀ f ∈ l, P f) (hx : P x) :
    ∀ key l, (key, l) ∈ alPush m k x → ∀ f ∈ l, P f := by
  intro key l hmem f hf
  rcases MeshScissor.alPush_mem hmem with h | ⟨l0, hget, heq⟩ | heq
  · exact hm key l h f hf
  · have hleq : l = l0 ++ [x] := congrArg Prod.snd heq
    rw [hleq] at hf
    rcases List.mem_append.mp hf with h1 | h1
    · exact hm _ l0 (MeshScissor.alGet_mem _ _ _ hget) f h1
    · rcases List.mem_singleton.mp h1 with rfl
      exact hx
  · have hleq : l = [x] := congrArg Prod.snd heq
    rw [hleq] at hf
    rcases List.mem_singleton.mp hf with rfl
    exact hx

/-- A fold of alPush with a fixed value preserves a predicate on all stored
values. -/
theorem foldl_alPush_values {κ α : Type} [DecidableEq κ] (P : ℕ → Prop)
    (x : ℕ) (hx : P x) (g : α → κ) :
    ∀ (es : List α) (m : List (κ × List ℕ)),
      (∀ key l, (key, l) ∈ m → ∀ f ∈ l, P f) →
      ∀ key l, (key, l) ∈ es.foldl (fun m e => alPush m (g e) x) m →
      ∀ f ∈ l, P f := by
  intro es
  induction es with
  | nil => intro m hm; exact hm
  | cons e es ih =>
      intro m hm
      rw [List.foldl_cons]
      exact ih _ (alPush_values P m (g e) x hm hx)

/-- All face indices stored in the edge-to-faces map are in range. -/
theorem edgeToFacesMap_values (faces : List (List ℕ)) :
    ∀ key l, (key, l) ∈ edgeToFacesMap faces → ∀ f ∈ l, f < faces.length := by
  suffices h : ∀ (idxs : List ℕ), (∀ i ∈ idxs, i < faces.length) →
      ∀ (m : List ((ℕ × ℕ) × List ℕ)),
      (∀ key l, (key, l) ∈ m → ∀ f ∈ l, f < faces.length) →
      ∀ key l, (key, l) ∈ idxs.foldl
        (fun m fIdx => (faceEdges (faces.getD fIdx [])).foldl
          (fun m e => alPush m (edgeKey e.1 e.2) fIdx) m) m →
      ∀ f ∈ l, f < faces.length by
    intro key l hm
    exact h (List.range faces.length) (fun i hi => List.mem_range.mp hi) []
      (by intro key l h'; cases h') key l hm
  intro idxs
  induction idxs with
  | nil => intro _ m hm; exact hm
  | cons i idxs ih =>
      intro hidx m hm
      rw [List.foldl_cons]
      exact ih (fun j hj => hidx j (List.mem_cons_of_mem _ hj)) _
        (foldl_alPush_values (fun f => f < faces.length) i
          (hidx i (List.mem_cons_self _ _)) (fun e => edgeKey e.1 e.2)
          (faceEdges (faces.getD i [])) m hm)

/-- listModify with an append preserves a predicate on all adjacency
entries. -/
theorem listModify_values (P : ℕ × (ℕ × ℕ) → Prop)
    (adjl : List (List (ℕ × (ℕ × ℕ))))
    (hadj : ∀ i, ∀ p ∈ adjl.getD i [], P p) (j : ℕ) (x : ℕ × (ℕ × ℕ))
    (hx : P x) :
    ∀ i, ∀ p ∈ (listModify adjl j (fun l => l ++ [x])).getD i [], P p := by
  intro i p hp
  unfold listModify at hp
  by_cases hij : i = j
  · subst hij
    by_cases hlen : i < adjl.length
    · rw [getD_set_self _ _ _ _ hlen] at hp
      rcases List.mem_append.mp hp with h | h
      · exact hadj i p h
      · rcases List.mem_singleton.mp h with rfl
        exact hx
    · rw [List.set_eq_of_length_le (by omega)] at hp
      exact hadj i p hp
  · rw [getD_set_ne _ _ _ _ _ hij] at hp
    exact hadj i p hp

/-- Every neighbor index stored in the computed face adjacency is a valid
face index. -/
theorem buildFaceAdjacency_values (mesh : Mesh) :
    ∀ i, ∀ p ∈ (buildFaceAdjacency mesh).getD i [],
      p.1 < mesh.faces.length := by
  suffices h : ∀ (entries : List ((ℕ × ℕ) × List ℕ)),
      (∀ e ∈ entries, ∀ f ∈ e.2, f < mesh.faces.length) →
      ∀ (adjl : List (List (ℕ × (ℕ × ℕ)))),
      (∀ i, ∀ p ∈ adjl.getD i [], p.1 < mesh.faces.length) →
      ∀ i, ∀ p ∈ (entries.foldl
        (fun adj entry =>
          match entry.2 with
          | [f1, f2] =>
              listModify (listModify adj f1 (fun l => l ++ [(f2, entry.1)])) f2
                (fun l => l ++ [(f1, entry.1)])
          | _ => adj) adjl).getD i [],
      p.1 < mesh.faces.length by
    intro i p hp
    refine h (edgeToFacesMap mesh.faces)
      (fun e he f hf => edgeToFacesMap_values mesh.faces e.1 e.2 he f hf)
      (List.replicate mesh.faces.length []) ?_ i p hp
    intro i p hp
    rw [getD_replicate_self] at hp
    cases hp
  intro entries
  induction entries with
  | nil => intro _ adjl h; exact h
  | cons e entries ih =>
      intro hent adjl hadj
      rw [List.foldl_cons]
      refine ih (fun e' he' => hent e' (List.mem_cons_of_mem _ he')) _ ?_
      obtain ⟨key, vals⟩ := e
      match vals with
      | [] => exact hadj
      | [f1] => exact hadj
      | f1 :: f2 :: f3 :: rest => exact hadj
      | [f1, f2] =>
          have hf1 : f1 < mesh.faces.length :=
            hent (key, [f1, f2]) (List.mem_cons_self _ _) f1
              (List.mem_cons_self _ _)
          have hf2 : f2 < mesh.faces.length :=
            hent (key, [f1, f2]) (List.mem_cons_self _ _) f2
              (List.mem_cons_of_mem _ (List.mem_cons_self _ _))
          exact listModify_values _ _
            (listModify_values _ _ hadj f1 (f2, key) hf2) f2 (f1, key) hf1

/-- The inner push fold of the flood loop: it marks and enqueues exactly the
fresh reachable neighbors, preserving the visitation invariant and
decreasing the termination measure. -/
theorem pushFold_spec (nn : ℕ) (base : List ℕ) :
    ∀ (nbs : List (ℕ × (ℕ × ℕ))) (v : List ℕ) (q : List ℕ),
    v.length = nn →
    (∀ p ∈ nbs, p.1 < nn) →
    (∀ i, v.getD i 0 ≠ 0 ↔ i ∈ base ++ q) →
    (base ++ q).Nodup →
    (∀ i ∈ base ++ q, i < nn) →
    (nbs.foldl (pushStep []) (v, q)).1.length = nn ∧
    (∀ i, (nbs.foldl (pushStep []) (v, q)).1.getD i 0 ≠ 0 ↔
      i ∈ base ++ (nbs.foldl (pushStep []) (v, q)).2) ∧
    (base ++ (nbs.foldl (pushStep []) (v, q)).2).Nodup ∧
    (∀ i ∈ base ++ (nbs.foldl (pushStep []) (v, q)).2, i < nn) ∧
    (∀ i, v.getD i 0 ≠ 0 → (nbs.foldl (pushStep []) (v, q)).1.getD i 0 ≠ 0) ∧
    (∀ p ∈ nbs, (nbs.foldl (pushStep []) (v, q)).1.getD p.1 0 ≠ 0) ∧
    2 * (nbs.foldl (pushStep []) (v, q)).1.count 0 +
        (nbs.foldl (pushStep []) (v, q)).2.length ≤
      2 * v.count 0 + q.length := by
  intro nbs
  induction nbs with
  | nil =>
      intro v q hlen hnbs hmark hnodup hbound
      exact ⟨hlen, hmark, hnodup, hbound, fun i h => h,
        fun p hp => absurd hp (List.not_mem_nil p), le_refl _⟩
  | cons nb nbs ih =>
      intro v q hlen hnbs hmark hnodup hbound
      rw [List.foldl_cons, pushStep_nil]
      by_cases hm : v.getD nb.1 0 ≠ 0
      · rw [if_pos hm]
        have hrest := ih v q hlen
          (fun p hp => hnbs p (List.mem_cons_of_mem _ hp)) hmark hnodup hbound
        refine ⟨hrest.1, hrest.2.1, hrest.2.2.1, hrest.2.2.2.1,
          hrest.2.2.2.2.1, ?_, hrest.2.2.2.2.2.2⟩
        intro p hp
        rcases List.mem_cons.mp hp with rfl | hp'
        · exact hrest.2.2.2.2.1 _ hm
        · exact hrest.2.2.2.2.2.1 p hp'
      · rw [if_neg hm]
        push_neg at hm
        have hnb1 : nb.1 < nn := hnbs nb (List.mem_cons_self _ _)
        have hnotmem : nb.1 ∉ base ++ q := fun hc => by
          have := (hmark nb.1).mpr hc
          exact this hm
        have hlen' : (v.set nb.1 1).length = nn := by
          rw [List.length_set]; exact hlen
        have hmark' : ∀ i, (v.set nb.1 1).getD i 0 ≠ 0 ↔
            i ∈ base ++ (q ++ [nb.1]) := by
          intro i
          by_cases hi : i = nb.1
          · subst hi
            rw [getD_set_self _ _ _ _ (by omega)]
            constructor
            · intro _
              exact List.mem_append_right _
                (List.mem_append_right _ (List.mem_singleton_self _))
            · intro _; exact one_ne_zero
          · rw [getD_set_ne _ _ _ _ _ hi, hmark i]
            constructor
            · intro h
              rcases List.mem_append.mp h with h' | h'
              · exact List.mem_append_left _ h'
              · exact List.mem_append_right _ (List.mem_append_left _ h')
            · intro h
              rcases List.mem_append.mp h with h' | h'
              · exact List.mem_append_left _ h'
              · rcases List.mem_append.mp h' with h'' | h''
                · exact List.mem_append_right _ h''
                · exact absurd (List.mem_singleton.mp h'') hi
        have hnodup' : (base ++ (q ++ [nb.1])).Nodup := by
          rw [← List.append_assoc]
          rw [List.nodup_append]
          refine ⟨hnodup, List.nodup_singleton _, ?_⟩
          intro a ha hb
          rcases List.mem_singleton.mp hb with rfl
          exact hnotmem ha
        have hbound' : ∀ i ∈ base ++ (q ++ [nb.1]), i < nn := by
          intro i hi
          rcases List.mem_append.mp hi with h' | h'
          · exact hbound i (List.mem_append_left _ h')
          · rcases List.mem_append.mp h' with h'' | h''
            · exact hbound i (List.mem_append_right _ h'')
            · rcases List.mem_singleton.mp h'' with rfl
              exact hnb1
        have hrest := ih (v.set nb.1 1) (q ++ [nb.1]) hlen'
          (fun p hp => hnbs p (List.mem_cons_of_mem _ hp)) hmark' hnodup'
          hbound'
        have hmono : ∀ i, v.getD i 0 ≠ 0 → (v.set nb.1 1).getD i 0 ≠ 0 := by
          intro i hi
          by_cases hij : i = nb.1
          · subst hij
            rw [getD_set_self _ _ _ _ (by omega)]
            exact one_ne_zero
          · rwa [getD_set_ne _ _ _ _ _ hij]
        refine ⟨hrest.1, hrest.2.1, hrest.2.2.1, hrest.2.2.2.1, ?_, ?_, ?_⟩
        · intro i hi
          exact hrest.2.2.2.2.1 i (hmono i hi)
        · intro p hp
          rcases List.mem_cons.mp hp with rfl | hp'
          · refine hrest.2.2.2.2.1 p.1 ?_
            rw [getD_set_self _ _ _ _ (by omega)]
            exact one_ne_zero
          · exact hrest.2.2.2.2.2.1 p hp'
        · have hcnt := count_set_zero v nb.1 (by omega) hm
          have hfin := hrest.2.2.2.2.2.2
          rw [List.length_append, List.length_singleton] at hfin
          omega

/-- The flood loop with empty wall, run with fuel at least its termination
measure, empties its queue and produces a duplicate-free island that is
exactly the set of marked faces, contains the initial worklist, and is
closed under adjacency. -/
theorem floodLoop_spec (adj : List (List (ℕ × (ℕ × ℕ)))) (nn : ℕ)
    (hadj : ∀ i, ∀ p ∈ adj.getD i [], p.1 < nn) :
    ∀ (fuel : ℕ) (visited queue island : List ℕ),
    visited.length = nn →
    (∀ i, visited.getD i 0 ≠ 0 ↔ i ∈ island ++ queue) →
    (island ++ queue).Nodup →
    (∀ i ∈ island ++ queue, i < nn) →
    (∀ i ∈ island, ∀ p ∈ adj.getD i [], visited.getD p.1 0 ≠ 0) →
    2 * visited.count 0 + queue.length ≤ fuel →
    (∀ i, (floodLoop adj [] fuel visited queue island).1.getD i 0 ≠ 0 ↔
        i ∈ (floodLoop adj [] fuel visited queue island).2) ∧
    (floodLoop adj [] fuel visited queue island).2.Nodup ∧
    (∀ i ∈ (floodLoop adj [] fuel visited queue island).2, i < nn) ∧
    (∀ i ∈ island ++ queue,
      i ∈ (floodLoop adj [] fuel visited queue island).2) ∧
    (∀ i ∈ (floodLoop adj [] fuel visited queue island).2,
      ∀ p ∈ adj.getD i [],
        p.1 ∈ (floodLoop adj [] fuel visited queue island).2) := by
  intro fuel
  induction fuel with
  | zero =>
      intro visited queue island hlen hmark hnodup hbound hclose hfuel
      have hq : queue = [] := List.length_eq_zero.mp (by omega)
      subst hq
      rw [floodLoop_zero]
      simp only [List.append_nil] at hmark hnodup hbound
      refine ⟨hmark, hnodup, hbound, ?_, ?_⟩
      · intro i hi
        simpa using hi
      · intro i hi p hp
        exact (hmark p.1).mp (hclose i hi p hp)
  | succ fuel ih =>
      intro visited queue island hlen hmark hnodup hbound hclose hfuel
      rw [floodLoop_succ]
      cases hq : queue.getLast? with
      | none =>
          have hqe : queue = [] := List.getLast?_eq_none_iff.mp hq
          subst hqe
          simp only [List.append_nil] at hmark hnodup hbound
          refine ⟨hmark, hnodup, hbound, ?_, ?_⟩
          · intro i hi
            simpa using hi
          · intro i hi p hp
            exact (hmark p.1).mp (hclose i hi p hp)
      | some fIdx =>
          have hsplit : queue.dropLast ++ [fIdx] = queue :=
            List.dropLast_append_getLast? fIdx hq
          have hfmem : fIdx ∈ island ++ queue := by
            refine List.mem_append_right _ ?_
            rw [← hsplit]
            exact List.mem_append_right _ (List.mem_singleton_self _)
          have hperm : List.Perm ((island ++ [fIdx]) ++ queue.dropLast)
              (island ++ queue) := by
            rw [List.append_assoc]
            have h2 : List.Perm ([fIdx] ++ queue.dropLast)
                (queue.dropLast ++ [fIdx]) := List.perm_append_comm
            have h3 := h2.append_left island
            rwa [hsplit] at h3
          have hmark0 : ∀ i, visited.getD i 0 ≠ 0 ↔
              i ∈ (island ++ [fIdx]) ++ queue.dropLast := by
            intro i
            rw [hmark i]
            exact hperm.mem_iff.symm
          have hnodup0 : ((island ++ [fIdx]) ++ queue.dropLast).Nodup :=
            hperm.nodup_iff.mpr hnodup
          have hbound0 : ∀ i ∈ (island ++ [fIdx]) ++ queue.dropLast, i < nn :=
            fun i hi => hbound i (hperm.subset hi)
          have hfold := pushFold_spec nn (island ++ [fIdx]) (adj.getD fIdx [])
            visited queue.dropLast hlen (fun p hp => hadj fIdx p hp) hmark0
            hnodup0 hbound0
          have hclose' : ∀ i ∈ island ++ [fIdx], ∀ p ∈ adj.getD i [],
              ((adj.getD fIdx []).foldl (pushStep [])
                (visited, queue.dropLast)).1.getD p.1 0 ≠ 0 := by
            intro i hi p hp
            rcases List.mem_append.mp hi with h' | h'
            · exact hfold.2.2.2.2.1 p.1 (hclose i h' p hp)
            · rcases List.mem_singleton.mp h' with rfl
              exact hfold.2.2.2.2.2.1 p hp
          have hqlen : queue.length = queue.dropLast.length + 1 := by
            conv_lhs => rw [← hsplit]
            rw [List.length_append, List.length_singleton]
          have hmeasure : 2 * ((adj.getD fIdx []).foldl (pushStep [])
                (visited, queue.dropLast)).1.count 0 +
              ((adj.getD fIdx []).foldl (pushStep [])
                (visited, queue.dropLast)).2.length ≤ fuel := by
            have := hfold.2.2.2.2.2.2
            omega
          have hrec := ih
            ((adj.getD fIdx []).foldl (pushStep []) (visited, queue.dropLast)).1
            ((adj.getD fIdx []).foldl (pushStep []) (visited, queue.dropLast)).2
            (island ++ [fIdx]) hfold.1 hfold.2.1 hfold.2.2.1 hfold.2.2.2.1
            hclose' hmeasure
          refine ⟨hrec.1, hrec.2.1, hrec.2.2.1, ?_, hrec.2.2.2.2⟩
          intro i hi
          refine hrec.2.2.2.1 i ?_
          exact (hfold.2.1 i).mp (hfold.2.2.2.2.1 i ((hmark i).mpr hi))

/-- The outer flood loop skips every start that is already visited. -/
theorem floodOuterLoop_skip (adj : List (List (ℕ × (ℕ × ℕ))))
    (wall : List (ℕ × ℕ)) (fuel : ℕ) :
    ∀ (rest : List ℕ) (v : List ℕ) (islands : List (List ℕ)),
    (∀ s ∈ rest, v.getD s 0 ≠ 0) →
    floodOuterLoop adj wall fuel rest v islands = islands := by
  intro rest
  induction rest with
  | nil => intro v islands _; rfl
  | cons s rest ih =>
      intro v islands h
      rw [floodOuterLoop_cons, if_pos (h s (List.mem_cons_self _ _))]
      exact ih v islands (fun s' hs' => h s' (List.mem_cons_of_mem _ hs'))

/-- The per-island kerf pass is trivial when there are no red vertices. -/
theorem buildSubMeshWithKerf_no_red (mesh : Mesh) (fs : List ℕ)
    (hne : fs ≠ []) :
    ∃ sm, buildSubMeshWithKerf mesh fs [] = some sm ∧
      sm.originalFaceIndices = fs ∧ sm.faces.length = fs.length := by
  have hclean : fs.filter (fun fIdx =>
      !((mesh.faces.getD fIdx []).any fun vIdx =>
        decide (vIdx ∈ ([] : List ℕ)))) = fs := by
    refine List.filter_eq_self.mpr ?_
    intro a _
    simp
  simp only [buildSubMeshWithKerf, hclean]
  rw [if_neg (by simpa using fun h => hne (List.length_eq_zero.mp h))]
  refine ⟨_, rfl, rfl, ?_⟩
  simp

/-- With no red vertices the internal-red accumulator stays empty. -/
theorem internalRed_nil (mesh : Mesh) (fs : List ℕ) :
    fs.foldl (fun s fIdx =>
      (mesh.faces.getD fIdx []).foldl
        (fun s vIdx => if vIdx ∈ ([] : List ℕ) then pushNew s vIdx else s) s)
      [] = [] := by
  have hinner : ∀ (l : List ℕ) (s : List ℕ),
      l.foldl (fun s vIdx =>
        if vIdx ∈ ([] : List ℕ) then pushNew s vIdx else s) s = s := by
    intro l
    induction l with
    | nil => intro s; rfl
    | cons a l ih =>
        intro s
        rw [List.foldl_cons, if_neg (List.not_mem_nil a)]
        exact ih s
  have houter : ∀ (l : List ℕ) (s : List ℕ),
      l.foldl (fun s fIdx =>
        (mesh.faces.getD fIdx []).foldl
          (fun s vIdx =>
            if vIdx ∈ ([] : List ℕ) then pushNew s vIdx else s) s) s = s := by
    intro l
    induction l with
    | nil => intro s; rfl
    | cons f l ih =>
        intro s
        rw [List.foldl_cons, hinner]
        exact ih s
  exact houter fs []

/-- With no seam edges no face is a boundary face. -/
theorem collectBoundaryFaces_nil (mesh : Mesh) :
    collectBoundaryFaces mesh [] = [] := by
  refine List.filter_eq_nil_iff.mpr ?_
  intro a _
  simp

end FloodSegmenter

/-- C7 (amended): with no barrier edges, no red vertices, a nonempty face
list whose face graph is connected from face 0, and a threshold not above
the face count, the segmenter returns exactly one patch whose original face
indices are exactly all faces of the input. -/
theorem c7_empty_barrier_single_patch (mesh : Mesh) (minFaces : ℕ) (b : Bool)
    (hn : 0 < mesh.faces.length)
    (hmin : minFaces ≤ mesh.faces.length)
    (hconn : ∀ j < mesh.faces.length,
      FloodSegmenter.Reach (FloodSegmenter.buildFaceAdjacency mesh) 0 j) :
    ∃ sm, FloodSegmenter.segmentWithSeams mesh [] minFaces b [] = [sm] ∧
      (∀ i, i ∈ sm.originalFaceIndices ↔ i < mesh.faces.length) ∧
      sm.originalFaceIndices.Nodup := by
  have hadj := FloodSegmenter.buildFaceAdjacency_values mesh
  have hone : (0 : ℕ) < mesh.faces.length := hn
  have hset0 : ((List.replicate mesh.faces.length (0 : ℕ)).set 0 1).getD 0 0 = 1 :=
    FloodSegmenter.getD_set_self _ _ _ _ (by simpa using hn)
  have hmark : ∀ i,
      ((List.replicate mesh.faces.length (0 : ℕ)).set 0 1).getD i 0 ≠ 0 ↔
        i ∈ ([] : List ℕ) ++ [0] := by
    intro i
    simp only [List.nil_append, List.mem_singleton]
    by_cases hi : i = 0
    · subst hi
      rw [hset0]
      exact ⟨fun _ => rfl, fun _ => one_ne_zero⟩
    · rw [FloodSegmenter.getD_set_ne _ _ _ _ _ hi,
        FloodSegmenter.getD_replicate_self]
      exact ⟨fun h => absurd rfl h, fun h => absurd h hi⟩
  have hcnt : (List.replicate mesh.faces.length (0 : ℕ)).count 0 =
      mesh.faces.length := by simp
  have hfuel : 2 * ((List.replicate mesh.faces.length (0 : ℕ)).set 0 1).count 0 +
      ([0] : List ℕ).length ≤ 2 * mesh.faces.length + 1 := by
    have hc := FloodSegmenter.count_set_zero
      (List.replicate mesh.faces.length (0 : ℕ)) 0 (by simpa using hn)
      (FloodSegmenter.getD_replicate_self _ _ _)
    simp only [List.length_singleton]
    omega
  have hspec := FloodSegmenter.floodLoop_spec (FloodSegmenter.buildFaceAdjacency mesh)
    mesh.faces.length hadj (2 * mesh.faces.length + 1)
    ((List.replicate mesh.faces.length (0 : ℕ)).set 0 1) [0] []
    (by simp) hmark (by simp) (by intro i hi; simp at hi; subst hi; exact hn)
    (by intro i hi; cases hi) hfuel
  have h0isle : 0 ∈ (FloodSegmenter.floodLoop
      (FloodSegmenter.buildFaceAdjacency mesh) [] (2 * mesh.faces.length + 1)
      ((List.replicate mesh.faces.length (0 : ℕ)).set 0 1) [0] []).2 :=
    hspec.2.2.2.1 0 (by simp)
  have hcompl : ∀ j, FloodSegmenter.Reach (FloodSegmenter.buildFaceAdjacency mesh) 0 j →
      j ∈ (FloodSegmenter.floodLoop (FloodSegmenter.buildFaceAdjacency mesh) []
        (2 * mesh.faces.length + 1)
        ((List.replicate mesh.faces.length (0 : ℕ)).set 0 1) [0] []).2 := by
    intro j hr
    induction hr with
    | refl => exact h0isle
    | tail h1 h2 ih =>
        obtain ⟨e, he⟩ := h2
        exact hspec.2.2.2.2 _ ih _ he
  have hiff : ∀ i, i ∈ (FloodSegmenter.floodLoop
      (FloodSegmenter.buildFaceAdjacency mesh) [] (2 * mesh.faces.length + 1)
      ((List.replicate mesh.faces.length (0 : ℕ)).set 0 1) [0] []).2 ↔
      i < mesh.faces.length := by
    intro i
    exact ⟨fun h => hspec.2.2.1 i h, fun h => hcompl i (hconn i h)⟩
  have hperm : List.Perm (FloodSegmenter.floodLoop
      (FloodSegmenter.buildFaceAdjacency mesh) [] (2 * mesh.faces.length + 1)
      ((List.replicate mesh.faces.length (0 : ℕ)).set 0 1) [0] []).2
      (List.range mesh.faces.length) :=
    (List.perm_ext_iff_of_nodup hspec.2.1 (List.nodup_range _)).mpr
      (by intro a; rw [hiff a, List.mem_range])
  have hlen_isle : (FloodSegmenter.floodLoop
      (FloodSegmenter.buildFaceAdjacency mesh) [] (2 * mesh.faces.length + 1)
      ((List.replicate mesh.faces.length (0 : ℕ)).set 0 1) [0] []).2.length =
      mesh.faces.length := by
    rw [hperm.length_eq, List.length_range]
  have hrange : List.range mesh.faces.length =
      0 :: (List.range (mesh.faces.length - 1)).map Nat.succ := by
    cases hcase : mesh.faces.length with
    | zero => omega
    | succ m => simp [List.range_succ_eq_map]
  have houter : FloodSegmenter.floodOuterLoop
      (FloodSegmenter.buildFaceAdjacency mesh) [] (2 * mesh.faces.length + 1)
      (List.range mesh.faces.length)
      (List.replicate mesh.faces.length (0 : ℕ)) [] =
      [(FloodSegmenter.floodLoop (FloodSegmenter.buildFaceAdjacency mesh) []
        (2 * mesh.faces.length + 1)
        ((List.replicate mesh.faces.length (0 : ℕ)).set 0 1) [0] []).2] := by
    rw [hrange, FloodSegmenter.floodOuterLoop_cons]
    rw [if_neg (by rw [FloodSegmenter.getD_replicate_self]; exact fun h => h rfl)]
    rw [if_pos (by rw [hlen_isle]; exact hn)]
    rw [List.nil_append]
    apply FloodSegmenter.floodOuterLoop_skip
    intro s hs
    obtain ⟨k, hk, rfl⟩ := List.mem_map.mp hs
    have hklt : Nat.succ k < mesh.faces.length := by
      have := List.mem_range.mp hk
      omega
    exact (hspec.1 (Nat.succ k)).mpr ((hiff (Nat.succ k)).mpr hklt)
  have hflood : FloodSegmenter.floodFillExcludingBoundary mesh
      (FloodSegmenter.buildFaceAdjacency mesh) [] [] =
      [(FloodSegmenter.floodLoop (FloodSegmenter.buildFaceAdjacency mesh) []
        (2 * mesh.faces.length + 1)
        ((List.replicate mesh.faces.length (0 : ℕ)).set 0 1) [0] []).2] := by
    show sortDescByLength (FloodSegmenter.floodOuterLoop
      (FloodSegmenter.buildFaceAdjacency mesh) [] (2 * mesh.faces.length + 1)
      (List.range mesh.faces.length)
      (List.replicate mesh.faces.length (0 : ℕ)) []) = _
    rw [houter]
    rfl
  obtain ⟨sm0, hsm0, hofi, hflen⟩ := FloodSegmenter.buildSubMeshWithKerf_no_red
    mesh _ (List.ne_nil_of_mem h0isle)
  have hvalid : [(FloodSegmenter.floodLoop (FloodSegmenter.buildFaceAdjacency mesh) []
      (2 * mesh.faces.length + 1)
      ((List.replicate mesh.faces.length (0 : ℕ)).set 0 1) [0] []).2].filter
      (fun island => decide (island.length ≥ minFaces)) =
      [(FloodSegmenter.floodLoop (FloodSegmenter.buildFaceAdjacency mesh) []
        (2 * mesh.faces.length + 1)
        ((List.replicate mesh.faces.length (0 : ℕ)).set 0 1) [0] []).2] := by
    refine List.filter_eq_self.mpr ?_
    intro a ha
    rcases List.mem_singleton.mp ha with rfl
    refine decide_eq_true ?_
    rw [hlen_isle]
    exact hmin
  refine ⟨{ sm0 with internalRedVertices := [] }, ?_, ?_, ?_⟩
  · simp only [FloodSegmenter.segmentWithSeams, FloodSegmenter.collectBoundaryFaces_nil,
      hflood]
    have hisl2 : (if (b : Prop) ∧
        [(FloodSegmenter.floodLoop (FloodSegmenter.buildFaceAdjacency mesh) []
          (2 * mesh.faces.length + 1)
          ((List.replicate mesh.faces.length (0 : ℕ)).set 0 1) [0] []).2].length > 0 then
        FloodSegmenter.assignBoundaryFacesByAdjacency
          (FloodSegmenter.buildFaceAdjacency mesh)
          [(FloodSegmenter.floodLoop (FloodSegmenter.buildFaceAdjacency mesh) []
            (2 * mesh.faces.length + 1)
            ((List.replicate mesh.faces.length (0 : ℕ)).set 0 1) [0] []).2] []
      else
        [(FloodSegmenter.floodLoop (FloodSegmenter.buildFaceAdjacency mesh) []
          (2 * mesh.faces.length + 1)
          ((List.replicate mesh.faces.length (0 : ℕ)).set 0 1) [0] []).2]) =
      [(FloodSegmenter.floodLoop (FloodSegmenter.buildFaceAdjacency mesh) []
        (2 * mesh.faces.length + 1)
        ((List.replicate mesh.faces.length (0 : ℕ)).set 0 1) [0] []).2] := by
      cases b with
      | false => rw [if_neg]; simp
      | true => rw [if_pos (by simp)]; rfl
    rw [hisl2, hvalid]
    show List.filterMap _ _ = _
    rw [List.filterMap_cons]
    simp only [FloodSegmenter.internalRed_nil, hsm0, List.filterMap_nil]
    rw [if_pos (by rw [hflen, hlen_isle]; exact hmin)]
  · intro i
    show i ∈ sm0.originalFaceIndices ↔ i < mesh.faces.length
    rw [hofi]
    exact hiff i
  · show sm0.originalFaceIndices.Nodup
    rw [hofi]
    exact hspec.2.1

/-- C7 counterexample to the unamended claim: a connected two-triangle mesh
with no barrier edges and the default minimum patch size 500 yields no patch
at all, because the single whole-mesh island is dropped by the size filter. -/
theorem c7_min_faces_drops_everything :
    FloodSegmenter.segmentWithSeams FloodSegmenter.meshW [] 500 true [] = [] ∧
    0 < FloodSegmenter.meshW.faces.length := by
  constructor
  · decide
  · decide

/-- C7 witness: the amended theorem applied to the two-triangle mesh FloodSegmenter.meshW
with threshold 1, whose face graph is connected via the shared edge (1,2). -/
theorem c7_empty_barrier_single_patch_witness :
    0 < FloodSegmenter.meshW.faces.length ∧ 1 ≤ FloodSegmenter.meshW.faces.length ∧
    (∀ j < FloodSegmenter.meshW.faces.length,
      FloodSegmenter.Reach (FloodSegmenter.buildFaceAdjacency FloodSegmenter.meshW) 0 j) ∧
    ∃ sm, FloodSegmenter.segmentWithSeams FloodSegmenter.meshW [] 1 true [] = [sm] ∧
      (∀ i, i ∈ sm.originalFaceIndices ↔ i < FloodSegmenter.meshW.faces.length) ∧
      sm.originalFaceIndices.Nodup := by
  have hconn : ∀ j < FloodSegmenter.meshW.faces.length,
      FloodSegmenter.Reach (FloodSegmenter.buildFaceAdjacency FloodSegmenter.meshW) 0 j := by
    intro j hj
    have hj2 : j < 2 := hj
    interval_cases j
    · exact Relation.ReflTransGen.refl
    · exact Relation.ReflTransGen.single ⟨(1, 2), by decide⟩
  exact ⟨by decide, by decide, hconn,
    c7_empty_barrier_single_patch FloodSegmenter.meshW 1 true (by decide) (by decide) hconn⟩


end ClothFlatten
